import Mathlib

set_option autoImplicit false

/-!
Verification development for the per-session browser execution engine of the
claw-assistant repository.  Python dictionaries are embedded as insertion-ordered
association lists (`Dict`); the pool bookkeeping of
`tools/browser_manager.py`, the orchestration and grouping logic of
`services/expense_service.py`, the login and option-selection logic of
`tools/browser_tools.py` and the message routing of `app/websocket.py`
are translated into executable Lean functions below.
-/

/-! ### Python dict embedding: insertion-ordered association lists -/

/-- A Python `dict` keyed by strings, as an insertion-ordered association list.
Reachable dicts have pairwise-distinct keys. -/
abbrev Dict (α : Type) := List (String × α)

/-- `d[k]` lookup returning `none` when the key is absent. -/
def dlookup {α : Type} : Dict α → String → Option α
  | [], _ => none
  | (k, v) :: rest, key => if k = key then some v else dlookup rest key

/-- `d[k] = v`: replace in place when the key exists (Python dicts keep the
original position on reassignment), else append at the end. -/
def dset {α : Type} : Dict α → String → α → Dict α
  | [], key, v => [(key, v)]
  | (k, w) :: rest, key, v =>
    if k = key then (k, v) :: rest else (k, w) :: dset rest key v

/-- `d.pop(k, None)`: drop the entry for `k` when present. -/
def dpop {α : Type} : Dict α → String → Dict α
  | [], _ => []
  | (k, v) :: rest, key => if k = key then rest else (k, v) :: dpop rest key

/-- The keys of a dict, in insertion order. -/
def dkeys {α : Type} (d : Dict α) : List String := d.map Prod.fst

theorem dlookup_dset_self {α : Type} (d : Dict α) (k : String) (v : α) :
    dlookup (dset d k v) k = some v := by
  induction d with
  | nil => simp [dset, dlookup]
  | cons hd tl ih =>
    obtain ⟨k', w⟩ := hd
    by_cases h : k' = k <;> simp [dset, dlookup, h, ih]

theorem dlookup_dset_ne {α : Type} (d : Dict α) (k k' : String) (v : α)
    (h : k ≠ k') : dlookup (dset d k v) k' = dlookup d k' := by
  induction d with
  | nil => simp [dset, dlookup, h]
  | cons hd tl ih =>
    obtain ⟨k'', w⟩ := hd
    by_cases h2 : k'' = k
    · subst h2
      simp [dset, dlookup, h]
    · simp [dset, dlookup, h2, ih]

theorem dlookup_append_left {α : Type} (d e : Dict α) (k : String) (v : α)
    (h : dlookup d k = some v) : dlookup (d ++ e) k = some v := by
  induction d with
  | nil => simp [dlookup] at h
  | cons hd tl ih =>
    obtain ⟨k', w⟩ := hd
    by_cases h2 : k' = k
    · simp [dlookup, h2] at h ⊢
      simpa [dlookup, h2] using h
    · simp [dlookup, h2] at h ⊢
      exact ih h

theorem dlookup_append_right {α : Type} (d e : Dict α) (k : String)
    (h : dlookup d k = none) : dlookup (d ++ e) k = dlookup e k := by
  induction d with
  | nil => simp
  | cons hd tl ih =>
    obtain ⟨k', w⟩ := hd
    by_cases h2 : k' = k
    · simp [dlookup, h2] at h
    · simp [dlookup, h2] at h ⊢
      exact ih h

@[simp] theorem dkeys_nil {α : Type} : dkeys ([] : Dict α) = [] := rfl

@[simp] theorem dkeys_cons {α : Type} (k : String) (v : α) (tl : Dict α) :
    dkeys ((k, v) :: tl) = k :: dkeys tl := rfl

theorem dlookup_isSome_iff_mem_dkeys {α : Type} (d : Dict α) (k : String) :
    (dlookup d k).isSome ↔ k ∈ dkeys d := by
  induction d with
  | nil => simp [dlookup]
  | cons hd tl ih =>
    obtain ⟨k', w⟩ := hd
    by_cases h : k' = k
    · simp [dlookup, h]
    · simp only [dlookup, if_neg h, dkeys_cons, List.mem_cons]
      constructor
      · intro hs
        exact Or.inr (ih.mp hs)
      · intro hs
        rcases hs with hs | hs
        · exact absurd hs.symm h
        · exact ih.mpr hs

theorem dlookup_eq_none_iff_not_mem {α : Type} (d : Dict α) (k : String) :
    dlookup d k = none ↔ k ∉ dkeys d := by
  rw [← dlookup_isSome_iff_mem_dkeys]
  cases h : dlookup d k <;> simp [h]

theorem dkeys_dset_mem {α : Type} (d : Dict α) (k : String) (v : α)
    (h : k ∈ dkeys d) : dkeys (dset d k v) = dkeys d := by
  induction d with
  | nil => simp at h
  | cons hd tl ih =>
    obtain ⟨k', w⟩ := hd
    by_cases h2 : k' = k
    · simp [dset, h2]
    · have hk : k ∈ dkeys tl := by
        simp only [dkeys_cons, List.mem_cons] at h
        rcases h with h | h
        · exact absurd h.symm h2
        · exact h
      simp [dset, h2, ih hk]

theorem dkeys_dset_not_mem {α : Type} (d : Dict α) (k : String) (v : α)
    (h : k ∉ dkeys d) : dkeys (dset d k v) = dkeys d ++ [k] := by
  induction d with
  | nil => simp [dset]
  | cons hd tl ih =>
    obtain ⟨k', w⟩ := hd
    have h1 : k' ≠ k := fun he => h (by simp [he])
    have h2 : k ∉ dkeys tl := fun hm => h (by simp [hm])
    simp [dset, h1, ih h2]

theorem dmem_of_dlookup {α : Type} (d : Dict α) (k : String) (v : α)
    (h : dlookup d k = some v) : (k, v) ∈ d := by
  induction d with
  | nil => simp [dlookup] at h
  | cons hd tl ih =>
    obtain ⟨k', w⟩ := hd
    by_cases h2 : k' = k
    · subst h2
      simp [dlookup] at h
      simp [h]
    · simp [dlookup, h2] at h
      exact List.mem_cons_of_mem _ (ih h)

theorem dmem_dset {α : Type} (d : Dict α) (k : String) (v : α)
    (kc : String × α) (h : kc ∈ dset d k v) : kc ∈ d ∨ kc = (k, v) := by
  induction d with
  | nil => simp [dset] at h; simp [h]
  | cons hd tl ih =>
    obtain ⟨k', w⟩ := hd
    by_cases h2 : k' = k
    · subst h2
      simp [dset] at h
      rcases h with h | h
      · exact Or.inr (by simp [h])
      · exact Or.inl (List.mem_cons_of_mem _ h)
    · simp [dset, h2] at h
      rcases h with h | h
      · exact Or.inl (by simp [h])
      · rcases ih h with h3 | h3
        · exact Or.inl (List.mem_cons_of_mem _ h3)
        · exact Or.inr h3

theorem dmem_dpop {α : Type} (d : Dict α) (k : String)
    (kc : String × α) (h : kc ∈ dpop d k) : kc ∈ d := by
  induction d with
  | nil => simp [dpop] at h
  | cons hd tl ih =>
    obtain ⟨k', w⟩ := hd
    by_cases h2 : k' = k
    · simp [dpop, h2] at h
      exact List.mem_cons_of_mem _ h
    · simp [dpop, h2] at h
      rcases h with h | h
      · simp [h]
      · exact List.mem_cons_of_mem _ (ih h)

theorem dpop_eq_self_of_none {α : Type} (d : Dict α) (k : String)
    (h : dlookup d k = none) : dpop d k = d := by
  induction d with
  | nil => simp [dpop]
  | cons hd tl ih =>
    obtain ⟨k', w⟩ := hd
    by_cases h2 : k' = k
    · simp [dlookup, h2] at h
    · simp [dlookup, h2] at h
      simp [dpop, h2, ih h]

/-! ### Session pool (`tools/browser_manager.py`, class `BrowserManager`)

The pool keeps three class-level dicts: `_instances` (session id to manager
object — only the key set matters here), `_last_access` (session id to
timestamp) and `_active_jobs` (session id to job reference count). -/

/-- Default of the `MAX_BROWSER_INSTANCES` environment variable. -/
def MAX_INSTANCES : Nat := 10

/-- Default of the `BROWSER_IDLE_TIMEOUT` environment variable (seconds). -/
def IDLE_TIMEOUT : Nat := 1800

structure PoolState where
  instances : List String
  lastAccess : Dict Nat
  activeJobs : Dict Nat
deriving DecidableEq

def emptyPool : PoolState := ⟨[], [], []⟩

/-- `min(cls._last_access, key=cls._last_access.get)`: first key holding the
minimal timestamp, scanning in insertion order. -/
def argmin_go : List (String × Nat) → String → Nat → String
  | [], bk, _ => bk
  | (k, v) :: rest, bk, bv =>
    if v < bv then argmin_go rest k v else argmin_go rest bk bv

def argmin_key : Dict Nat → Option String
  | [] => none
  | (k, v) :: rest => some (argmin_go rest k v)

/-- The idle-eviction sweep at the top of `BrowserManager.get_instance`
(lines 72-83): every session whose last access is older than `IDLE_TIMEOUT`
is popped from `_instances` and `_last_access` and queued for closing.
Note that `_active_jobs` is not consulted. -/
def evict_expired (st : PoolState) (now : Nat) : PoolState × List String :=
  let expired := (st.lastAccess.filter (fun p => IDLE_TIMEOUT < now - p.2)).map Prod.fst
  expired.foldl
    (fun acc sid =>
      (⟨acc.1.instances.erase sid, dpop acc.1.lastAccess sid, acc.1.activeJobs⟩,
       if sid ∈ acc.1.instances then acc.2 ++ [sid] else acc.2))
    (st, [])

/-- `BrowserManager.get_instance` (lines 67-101).  Returns the new pool state
together with the list of sessions handed to `_close_sync` (torn down).
When the requested session is absent and the pool is at capacity, the key with
the globally smallest `_last_access` timestamp is evicted — `_active_jobs` is
not consulted.  (On an empty `_last_access`, Python's `min` would raise; that
branch is modelled as a no-op and is unreachable from the in-sync states.) -/
def get_instance (st : PoolState) (session_id : String) (now : Nat) :
    PoolState × List String :=
  let p1 := evict_expired st now
  let st1 := p1.1
  let p2 :=
    if session_id ∈ st1.instances then (st1, p1.2)
    else
      let p1' :=
        if MAX_INSTANCES ≤ st1.instances.length then
          match argmin_key st1.lastAccess with
          | some oldest =>
            (⟨st1.instances.erase oldest, dpop st1.lastAccess oldest, st1.activeJobs⟩,
             if oldest ∈ st1.instances then p1.2 ++ [oldest] else p1.2)
          | none => (st1, p1.2)
        else (st1, p1.2)
      (⟨p1'.1.instances ++ [session_id], p1'.1.lastAccess, p1'.1.activeJobs⟩, p1'.2)
  (⟨p2.1.instances, dset p2.1.lastAccess session_id now, p2.1.activeJobs⟩, p2.2)

/-- `BrowserManager.acquire` (lines 103-108). -/
def acquire (st : PoolState) (sid : String) : PoolState :=
  { st with activeJobs := dset st.activeJobs sid ((dlookup st.activeJobs sid).getD 0 + 1) }

/-- `BrowserManager.release` (lines 110-119). -/
def release (st : PoolState) (sid : String) : PoolState :=
  let count := (dlookup st.activeJobs sid).getD 0
  if 1 < count then { st with activeJobs := dset st.activeJobs sid (count - 1) }
  else { st with activeJobs := dpop st.activeJobs sid }

/-- `BrowserManager.destroy_instance` (lines 121-137): skips teardown when the
session's reference count is positive. -/
def destroy_instance (st : PoolState) (sid : String) : PoolState × List String :=
  if 0 < (dlookup st.activeJobs sid).getD 0 then (st, [])
  else
    (⟨st.instances.erase sid, dpop st.lastAccess sid, st.activeJobs⟩,
     if sid ∈ st.instances then [sid] else [])

inductive PoolOp where
  | getInst (sid : String) (now : Nat)
  | acquireJob (sid : String)
  | releaseJob (sid : String)
  | destroyInst (sid : String)
deriving DecidableEq

/-- Run a sequence of pool operations, accumulating every session torn down. -/
def run_pool : List PoolOp → PoolState × List String → PoolState × List String
  | [], acc => acc
  | op :: rest, acc =>
    match op with
    | .getInst sid now =>
      let p := get_instance acc.1 sid now
      run_pool rest (p.1, acc.2 ++ p.2)
    | .acquireJob sid => run_pool rest (acquire acc.1 sid, acc.2)
    | .releaseJob sid => run_pool rest (release acc.1 sid, acc.2)
    | .destroyInst sid =>
      let p := destroy_instance acc.1 sid
      run_pool rest (p.1, acc.2 ++ p.2)

theorem evict_expired_activeJobs (st : PoolState) (now : Nat) :
    (evict_expired st now).1.activeJobs = st.activeJobs := by
  unfold evict_expired
  generalize ((st.lastAccess.filter (fun p => IDLE_TIMEOUT < now - p.2)).map Prod.fst) = l
  suffices h : ∀ (l : List String) (acc : PoolState × List String),
      (l.foldl (fun acc sid =>
        (⟨acc.1.instances.erase sid, dpop acc.1.lastAccess sid, acc.1.activeJobs⟩,
         if sid ∈ acc.1.instances then acc.2 ++ [sid] else acc.2)) acc).1.activeJobs
        = acc.1.activeJobs by
    exact h l (st, [])
  intro l
  induction l with
  | nil => intro acc; rfl
  | cons hd tl ih => intro acc; rw [List.foldl_cons, ih]

theorem get_instance_activeJobs (st : PoolState) (sid : String) (now : Nat) :
    (get_instance st sid now).1.activeJobs = st.activeJobs := by
  unfold get_instance
  have h := evict_expired_activeJobs st now
  dsimp only
  split
  · simpa using h
  · split
    · split <;> simpa using h
    · simpa using h

theorem destroy_instance_activeJobs (st : PoolState) (sid : String) :
    (destroy_instance st sid).1.activeJobs = st.activeJobs := by
  unfold destroy_instance
  split <;> rfl

/-- All reference counts stored in `_active_jobs` are at least 1. -/
def JobsInv (aj : Dict Nat) : Prop := ∀ kc ∈ aj, 1 ≤ kc.2

theorem acquire_inv (st : PoolState) (sid : String) (h : JobsInv st.activeJobs) :
    JobsInv (acquire st sid).activeJobs := by
  intro kc hm
  rcases dmem_dset _ _ _ _ hm with h2 | h2
  · exact h kc h2
  · simp [h2]

theorem release_inv (st : PoolState) (sid : String) (h : JobsInv st.activeJobs) :
    JobsInv (release st sid).activeJobs := by
  unfold release
  dsimp only
  split
  · rename_i hc
    intro kc hm
    rcases dmem_dset _ _ _ _ hm with h2 | h2
    · exact h kc h2
    · subst h2
      omega
  · intro kc hm
    exact h kc (dmem_dpop _ _ _ hm)

theorem run_pool_inv (ops : List PoolOp) (acc : PoolState × List String)
    (h : JobsInv acc.1.activeJobs) : JobsInv (run_pool ops acc).1.activeJobs := by
  induction ops generalizing acc with
  | nil => exact h
  | cons op rest ih =>
    cases op with
    | getInst sid now =>
      exact ih _ (by simpa [get_instance_activeJobs] using h)
    | acquireJob sid => exact ih _ (acquire_inv _ _ h)
    | releaseJob sid => exact ih _ (release_inv _ _ h)
    | destroyInst sid =>
      exact ih _ (by simpa [destroy_instance_activeJobs] using h)

/-- C10: for every sequence of pool operations starting from the empty pool,
every key present in `_active_jobs` has a reference count of at least one
(a count never becomes zero-but-present or negative), and `release` on a key
with no active jobs leaves the pool state unchanged. -/
theorem active_jobs_refcount_invariant :
    (∀ (ops : List PoolOp) (kc : String × Nat),
        kc ∈ (run_pool ops (emptyPool, [])).1.activeJobs → 1 ≤ kc.2)
    ∧ (∀ (st : PoolState) (sid : String),
        dlookup st.activeJobs sid = none → release st sid = st) := by
  constructor
  · intro ops kc hm
    exact run_pool_inv ops (emptyPool, []) (by intro kc h; simp [emptyPool] at h) kc hm
  · intro st sid h
    unfold release
    simp only [h, Option.getD_none]
    rw [if_neg (by omega), dpop_eq_self_of_none _ _ h]

/-- Witness for `active_jobs_refcount_invariant` at concrete inputs:
after a single `acquire("a")` the stored count 1 satisfies the bound, and
`release("y")` on a pool whose only counted session is `"x"` is a no-op. -/
theorem active_jobs_refcount_invariant_witness :
    (1 ≤ (("a", 1) : String × Nat).2)
    ∧ release ⟨["x"], [("x", 0)], [("x", 2)]⟩ "y" = ⟨["x"], [("x", 0)], [("x", 2)]⟩ :=
  ⟨active_jobs_refcount_invariant.1 [PoolOp.acquireJob "a"] ("a", 1) (by decide),
   active_jobs_refcount_invariant.2 ⟨["x"], [("x", 0)], [("x", 2)]⟩ "y" (by decide)⟩

/-- C1 (divergence evidence): the idle sweep inside `get_instance` tears down a
session whose `_active_jobs` reference count is 1.  Starting from an empty
pool: `get_instance("s0")` at time 0, `acquire("s0")`, then
`get_instance("s1")` at time 2000 (more than `IDLE_TIMEOUT` seconds later)
closes `"s0"` even though its reference count is still 1 — `get_instance`
never consults `_active_jobs`, only `destroy_instance`/`schedule_destroy` do. -/
theorem get_instance_evicts_session_with_active_jobs :
    ("s0" ∈ (run_pool
        [PoolOp.getInst "s0" 0, PoolOp.acquireJob "s0", PoolOp.getInst "s1" 2000]
        (emptyPool, [])).2)
    ∧ dlookup (run_pool
        [PoolOp.getInst "s0" 0, PoolOp.acquireJob "s0", PoolOp.getInst "s1" 2000]
        (emptyPool, [])).1.activeJobs "s0" = some 1
    ∧ ("s0" ∉ (run_pool
        [PoolOp.getInst "s0" 0, PoolOp.acquireJob "s0", PoolOp.getInst "s1" 2000]
        (emptyPool, [])).1.instances) := by
  decide

/-! ### Pending-question table (`services/expense_service.py` lines 50-96) and
message routing (`app/websocket.py`, `handle_message`, lines 60-143) -/

/-- One entry of `_input_requests`: the question, the answer slot and whether
the threading `Event` has been signalled. -/
structure InputReq where
  question : String
  response : Option String
  eventSet : Bool
deriving DecidableEq

/-- `submit_user_input(session_id, text)` (lines 54-62): under `_input_lock`,
when a request is pending for the session, store the text in the answer slot,
signal the event and return `True`; otherwise return `False`. -/
def submit_user_input (tbl : Dict InputReq) (session_id text : String) :
    Dict InputReq × Bool :=
  match dlookup tbl session_id with
  | some req => (dset tbl session_id { req with response := some text, eventSet := true }, true)
  | none => (tbl, false)

/-- `has_pending_input(session_id)` (lines 65-68). -/
def has_pending_input (tbl : Dict InputReq) (session_id : String) : Bool :=
  (dlookup tbl session_id).isSome

/-- Where `handle_message` dispatches an incoming chat message
(`app/websocket.py` lines 69-143).  `message` is already stripped; `hasFile`
says whether a `file_path` accompanied it. -/
inductive Route where
  | errorAck
  | answerSlot
  | reviewConfirm
  | background
deriving DecidableEq

def handle_message_route (message : String) (hasFile : Bool)
    (pendingInput : Bool) (pendingReview : Bool) : Route :=
  if message = "" ∧ hasFile = false then .errorAck
  else if message ≠ "" ∧ hasFile = false ∧ pendingInput then .answerSlot
  else if message ≠ "" ∧ hasFile = false ∧ pendingReview then .reviewConfirm
  else .background

/-- C6: `submit_user_input` returns `True` exactly when a question is open for
the session key, in which case the message is stored in that question's answer
slot; with no open question it returns `False` and leaves the table unchanged;
and the websocket handler only routes a message into the answer slot when a
question is pending for that key. -/
theorem submit_user_input_routing :
    (∀ (tbl : Dict InputReq) (sid text : String),
        (submit_user_input tbl sid text).2 = true ↔ (dlookup tbl sid).isSome)
    ∧ (∀ (tbl : Dict InputReq) (sid text : String) (req : InputReq),
        dlookup tbl sid = some req →
          dlookup (submit_user_input tbl sid text).1 sid
            = some { req with response := some text, eventSet := true })
    ∧ (∀ (tbl : Dict InputReq) (sid text : String),
        dlookup tbl sid = none → submit_user_input tbl sid text = (tbl, false))
    ∧ (∀ (tbl : Dict InputReq) (sid message : String)
        (hasFile pendingReview : Bool),
        handle_message_route message hasFile (has_pending_input tbl sid) pendingReview
            = Route.answerSlot →
          (dlookup tbl sid).isSome) := by
  refine ⟨?_, ?_, ?_, ?_⟩
  · intro tbl sid text
    unfold submit_user_input
    cases h : dlookup tbl sid <;> simp [h]
  · intro tbl sid text req h
    unfold submit_user_input
    rw [h]
    exact dlookup_dset_self _ _ _
  · intro tbl sid text h
    unfold submit_user_input
    rw [h]
  · intro tbl sid message hasFile pendingReview h
    unfold handle_message_route at h
    by_cases h1 : message = "" ∧ hasFile = false
    · simp [h1] at h
    · rw [if_neg h1] at h
      by_cases h2 : message ≠ "" ∧ hasFile = false ∧ has_pending_input tbl sid
      · simpa [has_pending_input] using h2.2.2
      · rw [if_neg h2] at h
        split at h <;> simp at h

/-- Witness for `submit_user_input_routing`: a concrete one-entry table with a
pending question for `"s"`; submitting stores the answer, a foreign key is
refused, and the router only targets the answer slot for the pending key. -/
theorem submit_user_input_routing_witness :
    ((submit_user_input [("s", ⟨"q", none, false⟩)] "s" "hi").2 = true
      ↔ (dlookup [("s", (⟨"q", none, false⟩ : InputReq))] "s").isSome)
    ∧ dlookup (submit_user_input [("s", ⟨"q", none, false⟩)] "s" "hi").1 "s"
        = some ⟨"q", some "hi", true⟩
    ∧ submit_user_input [("s", ⟨"q", none, false⟩)] "t" "hi"
        = ([("s", ⟨"q", none, false⟩)], false)
    ∧ (dlookup [("s", (⟨"q", none, false⟩ : InputReq))] "s").isSome :=
  ⟨submit_user_input_routing.1 [("s", ⟨"q", none, false⟩)] "s" "hi",
   submit_user_input_routing.2.1 [("s", ⟨"q", none, false⟩)] "s" "hi" ⟨"q", none, false⟩ (by decide),
   submit_user_input_routing.2.2.1 [("s", ⟨"q", none, false⟩)] "t" "hi" (by decide),
   submit_user_input_routing.2.2.2 [("s", ⟨"q", none, false⟩)] "s" "m" false true (by decide)⟩

/-! ### Parsed expense records and the job orchestrator
(`services/expense_service.py`) -/

/-- One parsed expense record (a Python dict); only the keys the grouping and
totalling logic reads are modelled.  An absent key is `none`; the parsed
numeric `amount` (a Python float) is modelled as an exact signed integer —
the code only ever sums amounts, never divides them, on the paths below. -/
structure Rec where
  tour_code : Option String
  program_code : Option String
  amount : Option Int
  charge_type : Option String
  currency : Option String
deriving DecidableEq

/-- `group_key.split("__item")[0] if "__item" in group_key else group_key`
(lines 868, 205): the part of a split-mode group key before the first
`"__item"`. -/
def break_at_item : List Char → Option (List Char)
  | [] => none
  | c :: rest =>
    if ("__item".data).isPrefixOf (c :: rest) then some []
    else (break_at_item rest).map (fun l => c :: l)

def display_code (k : String) : String :=
  match break_at_item k.data with
  | some pre => ⟨pre⟩
  | none => k

/-- The outcome dict of one group submission (`_process_tour_group`); fields
not read by the orchestrator or the claims are elided. -/
structure TourResult where
  tour_code : String
  status : String
  error : Option String
  total_amount : Option Int
  expense_number : Option String
deriving DecidableEq

/-- `timeout_secs = 120 + (n_items * 30)` (line 881). -/
def timeout_secs (nItems : Nat) : Nat := 120 + nItems * 30

/-- The error recorded for a timed-out group, `"Timed out after {timeout_secs}s"`
(line 899; the appended exception text is elided). -/
def timeout_message (nItems : Nat) : String :=
  "Timed out after " ++ toString (timeout_secs nItems) ++ "s"

/-- What `asyncio.wait_for(_process_tour_group(...))` produced for one group:
either the group's result dict, or an exception (`asyncio.TimeoutError` from
the wall-clock allowance, or any other escaped exception — the `except` at
line 893 catches every `Exception` alike). -/
inductive GroupOutcome where
  | completed (r : TourResult)
  | timedOut
deriving DecidableEq

/-- The entry appended when a group's `wait_for` raises (lines 896-901):
status `"failed"` with a timeout error message. -/
def timeout_entry (tour_code : String) (nItems : Nat) : TourResult :=
  ⟨tour_code, "failed", some (timeout_message nItems), none, none⟩

/-- The per-group loop of `_run_direct_async_inner` (lines 865-902): every
group is processed in order; a timed-out group contributes a failed entry and
the loop continues with the next group.  `oracle j` is the outcome of the
`j`-th group's submission (0-based). -/
def run_groups (oracle : Nat → GroupOutcome) :
    Nat → List (String × List Rec) → List TourResult
  | _, [] => []
  | i, g :: rest =>
    (match oracle i with
     | .completed r => r
     | .timedOut => timeout_entry (display_code g.1) g.2.length)
      :: run_groups oracle (i + 1) rest

/-- A `_jobs[job_id]` record (fields the claims read). -/
structure Job where
  status : String
  steps : List (String × String)
  results : List TourResult
deriving DecidableEq

/-- `_update_job` (lines 1578-1585): set the status and append a step. -/
def update_job (job : Job) (status message : String) : Job :=
  { job with status := status, steps := job.steps ++ [(status, message)] }

/-- A fresh `_jobs[job_id]` entry: `{"status": "started", "steps": [], "results": []}`. -/
def new_job : Job := ⟨"started", [], []⟩

/-- A `{status, message}` dict returned by a browser step. -/
structure StepResult where
  status : String
  message : String
deriving DecidableEq

/-- What `_run_direct_async_inner` returns to its caller. -/
structure RunOutput where
  content : String
  results : Option (List TourResult)
deriving DecidableEq

/-- `_run_direct_async_inner` (lines 839-1009): abort with a failed job when
login failed, else process every group and store the results on the job.
The markdown summary, CSV export and emitted progress events are elided; the
success-path `content` keeps only the summary header literal. -/
def run_direct_async_inner (login_result : StepResult) (job : Job)
    (grouped_records : List (String × List Rec)) (oracle : Nat → GroupOutcome) :
    Job × RunOutput :=
  if login_result.status ≠ "success" then
    (update_job job "failed" ("Login failed: " ++ login_result.message),
     ⟨"Login failed: " ++ login_result.message, none⟩)
  else
    let results := run_groups oracle 0 grouped_records
    let job1 := update_job job "completed"
      ("Processed " ++ toString grouped_records.length ++ " groups")
    ({ job1 with results := results },
     ⟨"## Expense Processing Complete", some results⟩)

theorem run_groups_length (oracle : Nat → GroupOutcome) (i : Nat)
    (groups : List (String × List Rec)) :
    (run_groups oracle i groups).length = groups.length := by
  induction groups generalizing i with
  | nil => rfl
  | cons g rest ih => simp [run_groups, ih]

theorem run_groups_nil (oracle : Nat → GroupOutcome) (i : Nat) :
    run_groups oracle i [] = [] := rfl

theorem run_groups_cons (oracle : Nat → GroupOutcome) (i : Nat)
    (g : String × List Rec) (rest : List (String × List Rec)) :
    run_groups oracle i (g :: rest)
      = (match oracle i with
         | .completed r => r
         | .timedOut => timeout_entry (display_code g.1) g.2.length)
          :: run_groups oracle (i + 1) rest := rfl

theorem run_groups_getElem? (oracle : Nat → GroupOutcome) (i : Nat)
    (groups : List (String × List Rec)) (j : Nat) :
    (run_groups oracle i groups)[j]?
      = (groups[j]?).map (fun g =>
          match oracle (i + j) with
          | .completed r => r
          | .timedOut => timeout_entry (display_code g.1) g.2.length) := by
  induction groups generalizing i j with
  | nil => simp [run_groups_nil]
  | cons g rest ih =>
    cases j with
    | zero =>
      rw [run_groups_cons]
      simp only [List.getElem?_cons_zero, Option.map_some', Nat.add_zero]
    | succ j =>
      rw [run_groups_cons]
      simp only [List.getElem?_cons_succ]
      rw [ih (i + 1) j]
      have h : i + 1 + j = i + (j + 1) := by omega
      simp only [h]

/-- C7: when the login step fails before any group starts, the whole job
aborts immediately: the job's status becomes `"failed"` with an explanatory
message, the job's results list stays empty, and no group is attempted — the
outcome does not depend on the groups or on their submission outcomes. -/
theorem login_failure_aborts_job (login_result : StepResult) (job : Job)
    (groups : List (String × List Rec)) (oracle : Nat → GroupOutcome)
    (hfail : login_result.status ≠ "success") (hres : job.results = []) :
    (run_direct_async_inner login_result job groups oracle).1.status = "failed"
    ∧ (run_direct_async_inner login_result job groups oracle).1.results = []
    ∧ (run_direct_async_inner login_result job groups oracle).2.content
        = "Login failed: " ++ login_result.message
    ∧ (run_direct_async_inner login_result job groups oracle).2.results = none
    ∧ ∀ (groups' : List (String × List Rec)) (oracle' : Nat → GroupOutcome),
        run_direct_async_inner login_result job groups' oracle'
          = run_direct_async_inner login_result job groups oracle := by
  unfold run_direct_async_inner
  rw [if_pos hfail]
  refine ⟨rfl, by simpa [update_job] using hres, rfl, rfl, ?_⟩
  intro groups' oracle'
  rw [if_pos hfail]

/-- Witness for `login_failure_aborts_job`: a failed login on a fresh job with
one pending group. -/
theorem login_failure_aborts_job_witness :
    (run_direct_async_inner ⟨"failed", "Login failed after all retries"⟩ new_job
        [("G1", [])] (fun _ => GroupOutcome.timedOut)).1.status = "failed"
    ∧ (run_direct_async_inner ⟨"failed", "Login failed after all retries"⟩ new_job
        [("G1", [])] (fun _ => GroupOutcome.timedOut)).1.results = []
    ∧ (run_direct_async_inner ⟨"failed", "Login failed after all retries"⟩ new_job
        [("G1", [])] (fun _ => GroupOutcome.timedOut)).2.content
        = "Login failed: " ++ "Login failed after all retries"
    ∧ (run_direct_async_inner ⟨"failed", "Login failed after all retries"⟩ new_job
        [("G1", [])] (fun _ => GroupOutcome.timedOut)).2.results = none
    ∧ ∀ (groups' : List (String × List Rec)) (oracle' : Nat → GroupOutcome),
        run_direct_async_inner ⟨"failed", "Login failed after all retries"⟩ new_job groups' oracle'
          = run_direct_async_inner ⟨"failed", "Login failed after all retries"⟩ new_job
              [("G1", [])] (fun _ => GroupOutcome.timedOut) :=
  login_failure_aborts_job ⟨"failed", "Login failed after all retries"⟩ new_job
    [("G1", [])] (fun _ => GroupOutcome.timedOut) (by decide) rfl

/-- C4 (counterexample): the claim says a timed-out group is recorded in its
own terminal category `"timeout"` distinct from `"failed"`.  In the code the
`except` branch (lines 896-901) records status `"failed"`: with two groups
where the first one times out, the first entry has status `"failed"` and no
entry ever carries status `"timeout"`. -/
theorem group_timeout_status_counterexample :
    (run_groups
        (fun j => if j = 0 then GroupOutcome.timedOut
          else GroupOutcome.completed ⟨"G2", "success", none, some 50, some "EXP1"⟩)
        0 [("G1", [⟨some "G1", none, some 100, some "flight", some "THB"⟩]),
           ("G2", [⟨some "G2", none, some 50, some "land_tour", some "THB"⟩])]).length = 2
    ∧ (run_groups
        (fun j => if j = 0 then GroupOutcome.timedOut
          else GroupOutcome.completed ⟨"G2", "success", none, some 50, some "EXP1"⟩)
        0 [("G1", [⟨some "G1", none, some 100, some "flight", some "THB"⟩]),
           ("G2", [⟨some "G2", none, some 50, some "land_tour", some "THB"⟩])])[0]?
        = some ⟨"G1", "failed", some "Timed out after 150s", none, none⟩
    ∧ ∀ r ∈ run_groups
        (fun j => if j = 0 then GroupOutcome.timedOut
          else GroupOutcome.completed ⟨"G2", "success", none, some 50, some "EXP1"⟩)
        0 [("G1", [⟨some "G1", none, some 100, some "flight", some "THB"⟩]),
           ("G2", [⟨some "G2", none, some 50, some "land_tour", some "THB"⟩])],
        r.status ≠ "timeout" := by
  decide

/-- C4 (amended): a group whose `wait_for` raises (wall-clock allowance
`120 + 30·n_items` seconds exceeded) is recorded with status `"failed"` and a
`"Timed out after …s"` error message — not a separate `"timeout"` status —
and the orchestrator still processes every other group of the job with its own
outcome. -/
theorem group_timeout_recorded_as_failed (oracle : Nat → GroupOutcome)
    (groups : List (String × List Rec)) :
    (run_groups oracle 0 groups).length = groups.length
    ∧ (∀ (j : Nat) (key : String) (items : List Rec),
        groups[j]? = some (key, items) → oracle j = GroupOutcome.timedOut →
          (run_groups oracle 0 groups)[j]?
            = some ⟨display_code key, "failed", some (timeout_message items.length),
                none, none⟩)
    ∧ (∀ (j : Nat) (g : String × List Rec) (r : TourResult),
        groups[j]? = some g → oracle j = GroupOutcome.completed r →
          (run_groups oracle 0 groups)[j]? = some r) := by
  refine ⟨run_groups_length oracle 0 groups, ?_, ?_⟩
  · intro j key items hg ho
    rw [run_groups_getElem? oracle 0 groups j, hg]
    rw [Option.map_some']
    rw [show (0 : Nat) + j = j from by omega, ho]
    rfl
  · intro j g r hg ho
    rw [run_groups_getElem? oracle 0 groups j, hg]
    rw [Option.map_some']
    rw [show (0 : Nat) + j = j from by omega, ho]

/-- Witness for `group_timeout_recorded_as_failed` on the two-group job where
group 0 times out and group 1 succeeds. -/
theorem group_timeout_recorded_as_failed_witness :
    (run_groups
        (fun j => if j = 0 then GroupOutcome.timedOut
          else GroupOutcome.completed ⟨"G2", "success", none, some 50, some "EXP1"⟩)
        0 [("G1", [⟨some "G1", none, some 100, some "flight", some "THB"⟩]),
           ("G2", [⟨some "G2", none, some 50, some "land_tour", some "THB"⟩])])[0]?
      = some ⟨display_code "G1", "failed", some (timeout_message 1), none, none⟩
    ∧ (run_groups
        (fun j => if j = 0 then GroupOutcome.timedOut
          else GroupOutcome.completed ⟨"G2", "success", none, some 50, some "EXP1"⟩)
        0 [("G1", [⟨some "G1", none, some 100, some "flight", some "THB"⟩]),
           ("G2", [⟨some "G2", none, some 50, some "land_tour", some "THB"⟩])])[1]?
      = some ⟨"G2", "success", none, some 50, some "EXP1"⟩ :=
  ⟨(group_timeout_recorded_as_failed _ _).2.1 0 "G1"
      [⟨some "G1", none, some 100, some "flight", some "THB"⟩] (by decide) (by decide),
   (group_timeout_recorded_as_failed _ _).2.2 1
      ("G2", [⟨some "G2", none, some 50, some "land_tour", some "THB"⟩])
      ⟨"G2", "success", none, some 50, some "EXP1"⟩ (by decide) (by decide)⟩

/-! ### Login (`tools/browser_tools.py`, `login`, lines 223-285) -/

/-- The per-manager authentication state: `_logged_in`, the dynamically set
`logged_in_username` attribute (Python `None` is `none`) and the browser
context's cookie jar. -/
structure ManagerAuth where
  loggedIn : Bool
  loggedInUsername : Option String
  cookies : List String
deriving DecidableEq

/-- What one login attempt (goto, fill credentials, click, check URL,
lines 250-274) did: moved off the login page, stayed on it, or raised an
exception (caught by the `except` at line 270). -/
inductive AttemptOutcome where
  | success
  | stillOnLoginPage
  | raised
deriving DecidableEq

/-- `username = username or Config.WEBSITE_USERNAME` (line 230): Python's
`or` falls back on an empty (falsy) string as well as on `None`. -/
def effective_username (username : Option String) (cfgUser : String) : String :=
  match username with
  | some u => if u = "" then cfgUser else u
  | none => cfgUser

/-- Lines 233-246: when already logged in under a truthy, different username,
clear the cookies and the identity marker and fall through to the retry loop;
otherwise return `"Already logged in"` without touching anything. -/
def login_prep (st : ManagerAuth) (user : String) :
    ManagerAuth × Option StepResult :=
  if st.loggedIn then
    match st.loggedInUsername with
    | some u =>
      if u ≠ "" ∧ u ≠ user then
        (⟨false, none, []⟩, none)
      else (st, some ⟨"success", "Already logged in"⟩)
    | none => (st, some ⟨"success", "Already logged in"⟩)
  else (st, none)

/-- The retry loop (lines 249-285): the list holds the outcome of each of the
`max_retries` attempts; an exception inside an attempt is caught and the loop
continues; exhaustion returns a failed result (never raises). -/
def login_loop (st : ManagerAuth) (user : String) :
    List AttemptOutcome → ManagerAuth × StepResult
  | [] => (st, ⟨"failed", "Login failed after all retries"⟩)
  | o :: rest =>
    match o with
    | .success =>
      ({ st with loggedIn := true, loggedInUsername := some user },
       ⟨"success", "Logged in successfully"⟩)
    | .stillOnLoginPage => login_loop st user rest
    | .raised => login_loop st user rest

/-- `login(username, password, max_retries, session_id)` (lines 223-285). -/
def login (st : ManagerAuth) (username : Option String) (cfgUser : String)
    (attempts : List AttemptOutcome) : ManagerAuth × StepResult :=
  let user := effective_username username cfgUser
  match login_prep st user with
  | (st', some r) => (st', r)
  | (st', none) => login_loop st' user attempts

/-- C8: `login` is a no-op returning success when the session is already
authenticated under the effective username; when it is authenticated under a
different (non-empty) identity, the cookie jar and the identity marker are
cleared before the re-login loop runs; and when every attempt fails the loop
returns a failed result — it never raises (attempt exceptions are consumed). -/
theorem login_identity_handling :
    (∀ (st : ManagerAuth) (un : Option String) (cfg : String)
        (attempts : List AttemptOutcome) (u : String),
        st.loggedIn = true → st.loggedInUsername = some u →
        u = effective_username un cfg →
        login st un cfg attempts = (st, ⟨"success", "Already logged in"⟩))
    ∧ (∀ (st : ManagerAuth) (un : Option String) (cfg : String)
        (attempts : List AttemptOutcome) (u : String),
        st.loggedIn = true → st.loggedInUsername = some u →
        u ≠ "" → u ≠ effective_username un cfg →
        login st un cfg attempts
          = login_loop ⟨false, none, []⟩ (effective_username un cfg) attempts)
    ∧ (∀ (st : ManagerAuth) (user : String) (attempts : List AttemptOutcome),
        (∀ o ∈ attempts, o ≠ AttemptOutcome.success) →
        login_loop st user attempts
          = (st, ⟨"failed", "Login failed after all retries"⟩)) := by
  refine ⟨?_, ?_, ?_⟩
  · intro st un cfg attempts u hl hm he
    unfold login login_prep
    rw [hl, hm]
    simp only [if_true]
    rw [if_neg (by intro hc; exact hc.2 he)]
  · intro st un cfg attempts u hl hm hne hdiff
    unfold login login_prep
    rw [hl, hm]
    simp only [if_true]
    rw [if_pos ⟨hne, hdiff⟩]
  · intro st user attempts h
    induction attempts with
    | nil => rfl
    | cons o rest ih =>
      cases o with
      | success => exact absurd rfl (h .success (by simp))
      | stillOnLoginPage =>
        exact (ih (fun o ho => h o (List.mem_cons_of_mem _ ho)))
      | raised =>
        exact (ih (fun o ho => h o (List.mem_cons_of_mem _ ho)))

/-- Witness for `login_identity_handling`: a session logged in as `"alice"`:
calling with `"alice"` is a no-op; calling with `"bob"` clears cookies and
marker first; and a run whose three attempts all fail returns `failed`. -/
theorem login_identity_handling_witness :
    login ⟨true, some "alice", ["sid-cookie"]⟩ (some "alice") "cfg"
        [AttemptOutcome.raised]
      = (⟨true, some "alice", ["sid-cookie"]⟩, ⟨"success", "Already logged in"⟩)
    ∧ login ⟨true, some "alice", ["sid-cookie"]⟩ (some "bob") "cfg"
        [AttemptOutcome.raised]
      = login_loop ⟨false, none, []⟩ "bob" [AttemptOutcome.raised]
    ∧ login_loop ⟨false, none, []⟩ "bob"
        [AttemptOutcome.raised, AttemptOutcome.stillOnLoginPage,
         AttemptOutcome.raised]
      = (⟨false, none, []⟩, ⟨"failed", "Login failed after all retries"⟩) :=
  ⟨login_identity_handling.1 ⟨true, some "alice", ["sid-cookie"]⟩ (some "alice")
      "cfg" [AttemptOutcome.raised] "alice" rfl rfl (by decide),
   by
    have h := login_identity_handling.2.1 ⟨true, some "alice", ["sid-cookie"]⟩
      (some "bob") "cfg" [AttemptOutcome.raised] "alice" rfl rfl
      (by decide) (by decide)
    simpa [effective_username] using h,
   login_identity_handling.2.2 ⟨false, none, []⟩ "bob"
      [AttemptOutcome.raised, AttemptOutcome.stillOnLoginPage,
       AttemptOutcome.raised] (by decide)⟩

/-! ### Dropdown selection (`tools/browser_tools.py`,
`_js_select_option` lines 1216-1256 and `_select_via_js` lines 1363-1399) -/

/-- One `<option>` of a `<select>` element. -/
structure OptionEl where
  value : String
  text : String
deriving DecidableEq

/-- The `<select>` element: its option list and `selectedIndex`. -/
structure SelectEl where
  options : List OptionEl
  selectedIndex : Int
deriving DecidableEq

/-- JS `haystack.indexOf(needle) >= 0` / `haystack.includes(needle)`. -/
def is_sub (needle : List Char) : List Char → Bool
  | [] => needle.isEmpty
  | c :: rest => needle.isPrefixOf (c :: rest) || is_sub needle rest

/-- A character removed by the `/[\s.,']+/g` normalisation (whitespace, dot,
comma, apostrophe — the apostrophe written as code point 39). -/
def js_punct (c : Char) : Bool :=
  c.isWhitespace || c == '.' || c == ',' || c == Char.ofNat 39

/-- `.toLowerCase().replace(/[\s.,']+/g, '')` (lines 1226, 1230-1231). -/
def js_norm (s : String) : List Char :=
  (s.data.map Char.toLower).filter (fun c => !js_punct c)

/-- `.toLowerCase()` alone (`_select_via_js`, lines 1374, 1378-1379). -/
def js_lower (s : String) : List Char := s.data.map Char.toLower

inductive SelectOutcome where
  | ok
  | noMatch
deriving DecidableEq

/-- The scoring loop of `_js_select_option` (lines 1227-1243): exact match on
normalised value or text breaks immediately; a substring match of the needle
scores `needle.length`; a reverse containment of an option text longer than 3
scores `optTxt.length`; the best strictly-greater score wins, `-1` when
nothing matched. -/
def js_best_go (needle : List Char) :
    List OptionEl → Nat → Int → Nat → Int
  | [], _, bestIdx, _ => bestIdx
  | o :: rest, i, bestIdx, bestScore =>
    let optVal := js_norm o.value
    let optTxt := js_norm o.text
    if optVal = needle ∨ optTxt = needle then Int.ofNat i
    else
      let p := is_sub needle optTxt || is_sub needle optVal
      let b1 : Int × Nat :=
        if p && decide (bestScore < needle.length) then (Int.ofNat i, needle.length)
        else (bestIdx, bestScore)
      let q := is_sub optTxt needle && decide (3 < optTxt.length)
      let b2 : Int × Nat :=
        if q && decide (b1.2 < optTxt.length) then (Int.ofNat i, optTxt.length)
        else b1
      js_best_go needle rest (i + 1) b2.1 b2.2

/-- `_js_select_option` (lines 1216-1256) on a present `<select>`: pick the
best-scoring option; when one exists assign `selectedIndex` and dispatch the
`change` event (the returned `Bool`); otherwise return `no_match` without
touching the element.  There is no fallback branch. -/
def js_select_option (sel : SelectEl) (value : String) :
    SelectEl × Bool × SelectOutcome :=
  let needle := js_norm value
  let bestIdx := js_best_go needle sel.options 0 (-1) 0
  if 0 ≤ bestIdx then
    ({ sel with selectedIndex := bestIdx }, true, .ok)
  else (sel, false, .noMatch)

/-- The matching loop of `_select_via_js` (lines 1377-1385): first option
whose lowered text or value contains the target or is contained in it. -/
def via_js_go (target : List Char) : List OptionEl → Nat → Int
  | [], _ => -1
  | o :: rest, i =>
    let txt := js_lower o.text
    let val := js_lower o.value
    if is_sub target txt || is_sub target val || is_sub txt target || is_sub val target then
      Int.ofNat i
    else via_js_go target rest (i + 1)

/-- `_select_via_js` (lines 1363-1399) on a present `<select>`: first
substring match either way; with no match and more than one option, fall back
to index 1 (`if (foundIdx < 0 && opts.length > 1) foundIdx = 1`); an
assignment sets `selectedIndex` and dispatches `change` (the `Bool`). -/
def select_via_js (sel : SelectEl) (value : String) :
    SelectEl × Bool × SelectOutcome :=
  let target := js_lower value
  let found := via_js_go target sel.options 0
  let found2 := if found < 0 ∧ 1 < sel.options.length then 1 else found
  if found2 < 0 then (sel, false, .noMatch)
  else ({ sel with selectedIndex := found2 }, true, .ok)

/-- Index of the first option with non-empty text (what the claim's fallback
would select). -/
def first_nonempty_idx (opts : List OptionEl) : Option Nat :=
  opts.findIdx? (fun o => !(o.text == ""))

/-- C5 (counterexample): with options `aaa` and `bbb` and target `zzz` nothing
matches; the claimed fallback would select the first non-empty option (index
0), but `_select_via_js` selects index 1 and `_js_select_option` selects
nothing at all and reports `no_match`. -/
theorem select_option_fallback_counterexample :
    (select_via_js ⟨[⟨"aaa", "aaa"⟩, ⟨"bbb", "bbb"⟩], -1⟩ "zzz").1.selectedIndex = 1
    ∧ first_nonempty_idx [⟨"aaa", "aaa"⟩, ⟨"bbb", "bbb"⟩] = some 0
    ∧ js_select_option ⟨[⟨"aaa", "aaa"⟩, ⟨"bbb", "bbb"⟩], -1⟩ "zzz"
        = (⟨[⟨"aaa", "aaa"⟩, ⟨"bbb", "bbb"⟩], -1⟩, false, SelectOutcome.noMatch) := by
  decide

/-- C5 (amended): when no option matches the fuzzy scoring,
`_js_select_option` makes no selection and reports `no_match`, while
`_select_via_js` falls back to the option at index 1 whenever the list has
more than one option (regardless of that option's text) and makes no
selection otherwise; in both functions the change notification is dispatched
exactly when an assignment is made. -/
theorem select_option_no_match_behaviour :
    (∀ (sel : SelectEl) (value : String),
        js_best_go (js_norm value) sel.options 0 (-1) 0 < 0 →
        js_select_option sel value = (sel, false, SelectOutcome.noMatch))
    ∧ (∀ (sel : SelectEl) (value : String),
        via_js_go (js_lower value) sel.options 0 < 0 → 1 < sel.options.length →
        select_via_js sel value = ({ sel with selectedIndex := 1 }, true, SelectOutcome.ok))
    ∧ (∀ (sel : SelectEl) (value : String),
        via_js_go (js_lower value) sel.options 0 < 0 → ¬ 1 < sel.options.length →
        select_via_js sel value = (sel, false, SelectOutcome.noMatch))
    ∧ (∀ (sel : SelectEl) (value : String),
        (js_select_option sel value).2.1 = true
          ↔ (js_select_option sel value).2.2 = SelectOutcome.ok)
    ∧ (∀ (sel : SelectEl) (value : String),
        (select_via_js sel value).2.1 = true
          ↔ (select_via_js sel value).2.2 = SelectOutcome.ok) := by
  refine ⟨?_, ?_, ?_, ?_, ?_⟩
  · intro sel value h
    unfold js_select_option
    simp only []
    rw [if_neg (by omega)]
  · intro sel value h hlen
    unfold select_via_js
    simp only []
    have h2 : (if via_js_go (js_lower value) sel.options 0 < 0 ∧ 1 < sel.options.length
        then (1 : Int) else via_js_go (js_lower value) sel.options 0) = 1 :=
      if_pos ⟨h, hlen⟩
    rw [h2, if_neg (by omega : ¬ (1 : Int) < 0)]
  · intro sel value h hlen
    unfold select_via_js
    simp only []
    have h2 : (if via_js_go (js_lower value) sel.options 0 < 0 ∧ 1 < sel.options.length
        then (1 : Int) else via_js_go (js_lower value) sel.options 0)
        = via_js_go (js_lower value) sel.options 0 :=
      if_neg (fun hc => hlen hc.2)
    rw [h2, if_pos h]
  · intro sel value
    unfold js_select_option
    simp only []
    split <;> simp
  · intro sel value
    unfold select_via_js
    simp only []
    split
    · simp
    · split <;> simp

/-- Witness for `select_option_no_match_behaviour` at the `aaa`/`bbb` options
with target `zzz` (no match anywhere). -/
theorem select_option_no_match_behaviour_witness :
    js_select_option ⟨[⟨"aaa", "aaa"⟩, ⟨"bbb", "bbb"⟩], 0⟩ "zzz"
      = (⟨[⟨"aaa", "aaa"⟩, ⟨"bbb", "bbb"⟩], 0⟩, false, SelectOutcome.noMatch)
    ∧ select_via_js ⟨[⟨"aaa", "aaa"⟩, ⟨"bbb", "bbb"⟩], 0⟩ "zzz"
      = (⟨[⟨"aaa", "aaa"⟩, ⟨"bbb", "bbb"⟩], 1⟩, true, SelectOutcome.ok)
    ∧ select_via_js ⟨[⟨"aaa", "aaa"⟩], 0⟩ "zzz"
      = (⟨[⟨"aaa", "aaa"⟩], 0⟩, false, SelectOutcome.noMatch)
    ∧ ((js_select_option ⟨[⟨"aaa", "aaa"⟩], 0⟩ "aaa").2.1 = true
        ↔ (js_select_option ⟨[⟨"aaa", "aaa"⟩], 0⟩ "aaa").2.2 = SelectOutcome.ok) :=
  ⟨select_option_no_match_behaviour.1 ⟨[⟨"aaa", "aaa"⟩, ⟨"bbb", "bbb"⟩], 0⟩ "zzz" (by decide),
   select_option_no_match_behaviour.2.1 ⟨[⟨"aaa", "aaa"⟩, ⟨"bbb", "bbb"⟩], 0⟩ "zzz"
     (by decide) (by decide),
   select_option_no_match_behaviour.2.2.1 ⟨[⟨"aaa", "aaa"⟩], 0⟩ "zzz"
     (by decide) (by decide),
   select_option_no_match_behaviour.2.2.2.1 ⟨[⟨"aaa", "aaa"⟩], 0⟩ "aaa"⟩

theorem js_select_option_options (sel : SelectEl) (value : String) :
    (js_select_option sel value).1.options = sel.options := by
  unfold js_select_option
  simp only []
  split <;> rfl

/-- C9: selecting the same target value twice in a row via `_js_select_option`
leaves the element exactly as after the first call — the scoring only reads
the (unchanged) option list, so the second call recomputes the same index and
the selected index does not oscillate. -/
theorem select_option_idempotent (sel : SelectEl) (value : String) :
    (js_select_option (js_select_option sel value).1 value).1
      = (js_select_option sel value).1 := by
  unfold js_select_option
  simp only []
  by_cases h : (0 : Int) ≤ js_best_go (js_norm value) sel.options 0 (-1) 0
  · rw [if_pos h]
    simp only []
    rw [if_pos h]
  · rw [if_neg h]
    simp only []
    rw [if_neg h]

/-! ### Record grouping (`services/expense_service.py`,
`_group_records_by_tour`, lines 1607-1694) -/

/-- Python `str.strip()` (ASCII whitespace). -/
def py_strip (s : String) : String :=
  ⟨((s.data.dropWhile Char.isWhitespace).reverse.dropWhile Char.isWhitespace).reverse⟩

/-- Python `str.upper()` (restricted to ASCII, as used by the tour codes). -/
def py_upper (s : String) : String := ⟨s.data.map Char.toUpper⟩

/-- Python `str.lower()` (ASCII). -/
def py_lower (s : String) : String := ⟨s.data.map Char.toLower⟩

/-- `_normalize_tour_code` (lines 1642-1648): strip + uppercase; when the code
is longer than 6 characters and ends in a letter, strip all trailing
uppercase letters (`rstrip("ABCDEFGHIJKLMNOPQRSTUVWXYZ")`) and keep the base
when it is still at least 6 characters and ends in a digit. -/
def normalize_stripped (tc : String) : String :=
  match tc.data.getLast? with
  | none => tc
  | some c =>
    if c.isAlpha ∧ 6 < tc.data.length then
      let base := (tc.data.reverse.dropWhile Char.isUpper).reverse
      match base.getLast? with
      | some b => if 6 ≤ base.length ∧ b.isDigit then ⟨base⟩ else tc
      | none => tc
    else tc

def normalize_tour_code (tc0 : String) : String :=
  normalize_stripped (py_upper (py_strip tc0))

/-- `rec.get("tour_code", "UNKNOWN")`. -/
def raw_tour_code (r : Rec) : String := r.tour_code.getD "UNKNOWN"

def norm_of (r : Rec) : String := normalize_tour_code (raw_tour_code r)

/-- `(item.get("program_code") or "").strip().upper()` (line 1671). -/
def prog_code_of (r : Rec) : String := py_upper (py_strip (r.program_code.getD ""))

/-- Decimal digit characters, for Python's `f"{i}"`. -/
def digit_char : Nat → Char
  | 0 => '0' | 1 => '1' | 2 => '2' | 3 => '3' | 4 => '4'
  | 5 => '5' | 6 => '6' | 7 => '7' | 8 => '8' | _ => '9'

def digit_val (c : Char) : Nat := c.toNat - 48

/-- Fuel-bounded decimal rendering; `dec_repr n` is Python's `str(n)`. -/
def dec_aux : Nat → Nat → List Char
  | 0, _ => []
  | fuel + 1, n =>
    if n < 10 then [digit_char n]
    else dec_aux fuel (n / 10) ++ [digit_char (n % 10)]

def dec_repr (n : Nat) : List Char := dec_aux (n + 1) n

/-- The split-mode group key `f"{tc}__item{i}"` (line 1632). -/
def split_key (tc : String) (i : Nat) : String :=
  tc ++ "__item" ++ ⟨dec_repr i⟩

/-- Split mode (lines 1624-1639): each record gets its own singleton group
under a unique per-index key. -/
def split_go : Nat → List Rec → Dict (List Rec) → Dict (List Rec)
  | _, [], g => g
  | i, r :: rest, g =>
    split_go (i + 1) rest (dset g (split_key (raw_tour_code r) i) [r])

/-- `grouped.setdefault(canonical, []).append(rec)` (line 1663). -/
def setdefault_append (g : Dict (List Rec)) (k : String) (r : Rec) :
    Dict (List Rec) :=
  match dlookup g k with
  | some items => dset g k (items ++ [r])
  | none => g ++ [(k, [r])]

/-- Pass 1 of combine mode (lines 1650-1663): group by normalised tour code,
keeping the first raw code of each normalised code as the canonical key. -/
def pass1_go : List Rec → Dict String → Dict (List Rec) →
    Dict String × Dict (List Rec)
  | [], nm, g => (nm, g)
  | r :: rest, nm, g =>
    match dlookup nm (norm_of r) with
    | some canonical => pass1_go rest nm (setdefault_append g canonical r)
    | none =>
      pass1_go rest (nm ++ [(norm_of r, raw_tour_code r)])
        (setdefault_append g (raw_tour_code r) r)

/-- The inner loop of pass 2 (lines 1669-1677) over one group's items:
record a merge when a program code is already bound to a different canonical
key, else (re)bind it. -/
def scan_items (canonical : String) : List Rec → Dict String → Dict String →
    Dict String × Dict String
  | [], pg, mm => (pg, mm)
  | item :: rest, pg, mm =>
    let pc := prog_code_of item
    if pc = "" then scan_items canonical rest pg mm
    else
      match dlookup pg pc with
      | some g0 =>
        if g0 ≠ canonical then scan_items canonical rest pg (dset mm canonical g0)
        else scan_items canonical rest (dset pg pc canonical) mm
      | none => scan_items canonical rest (dset pg pc canonical) mm

/-- Pass 2 scan over all groups, producing `pc_to_group` and `merge_map`. -/
def pass2_go : List (String × List Rec) → Dict String → Dict String →
    Dict String × Dict String
  | [], pg, mm => (pg, mm)
  | g :: rest, pg, mm =>
    let p := scan_items g.1 g.2 pg mm
    pass2_go rest p.1 p.2

/-- `merged.setdefault(target, []).extend(items)` (line 1683). -/
def setdefault_extend (g : Dict (List Rec)) (k : String) (items : List Rec) :
    Dict (List Rec) :=
  match dlookup g k with
  | some old => dset g k (old ++ items)
  | none => g ++ [(k, items)]

/-- Lines 1679-1684: rebuild the dict redirecting each canonical key through
`merge_map` (skipped entirely when `merge_map` is empty). -/
def apply_merge (grouped : Dict (List Rec)) (mm : Dict String) :
    Dict (List Rec) :=
  if mm = [] then grouped
  else
    grouped.foldl
      (fun acc kv => setdefault_extend acc ((dlookup mm kv.1).getD kv.1) kv.2) []

/-- `_group_records_by_tour(records, expense_type)` (lines 1607-1694). -/
def group_records_by_tour (records : List Rec) (expense_type : String) :
    Dict (List Rec) :=
  if expense_type = "flight" ∨ expense_type = "insurance" ∨ expense_type = "misc" then
    split_go 0 records []
  else
    let p := pass1_go records [] []
    let q := pass2_go p.2 [] []
    apply_merge p.2 q.2

/-! ### Group totals (`_process_tour_group`, lines 1047-1364, and
`review_expense_invoice`, lines 204-233) -/

/-- `sum(r.get("amount", 0) for r in line_items)` (lines 1072, 872, 208). -/
def total_amount_fold (items : List Rec) : Int :=
  items.foldl (fun acc r => acc + r.amount.getD 0) 0

/-- The signed sum of the member amounts (specification side). -/
def signed_sum (items : List Rec) : Int :=
  (items.map (fun r => r.amount.getD 0)).sum

/-- The per-group review sections built by `review_expense_invoice`
(lines 204-231): each group of the parsed records with its subtotal
`sum(r.get("amount", 0) for r in items)`. -/
def review_sections (records : List Rec) (expense_type : String) :
    List (String × List Rec × Int) :=
  (group_records_by_tour records expense_type).map
    (fun kv => (kv.1, kv.2, total_amount_fold kv.2))

/-- Outcomes of the browser steps consulted by `_process_tour_group`; steps
whose results are only logged (`select_program_and_tour`,
`click_add_company_expense`, `fill_company_expense`, the manage-page steps)
or that do not affect the claims (supplier question, program-code lookup)
are elided or ignored exactly as the code ignores them. -/
structure BrowserOutcomes where
  nav : StepResult
  relogin : StepResult
  nav2 : StepResult
  fill : StepResult
  compFill : StepResult
  submitStep : StepResult
  extract : Option String
deriving DecidableEq

/-- The form-filling path of `_process_tour_group` (lines 1188-1332) reduced
to the data the claim is about.  The first component is the returned result
dict; the second is the amount handed to `fill_company_expense`
(`amount=total_amount`, line 1269) — the single form submission's total —
when that call is reached.  Exceptions escaping the `try` produce a failed
result without a total; they never reach the submission either. -/
def process_tour_group (tour_code : String) (line_items : List Rec)
    (o : BrowserOutcomes) : TourResult × Option Int :=
  let total_amount := total_amount_fold line_items
  let nav :=
    if o.nav.status ≠ "success" then
      if (is_sub "session expired".data (py_lower o.nav.message).data
            || is_sub "login".data (py_lower o.nav.message).data)
          && (o.relogin.status == "success") then
        o.nav2
      else o.nav
    else o.nav
  if nav.status ≠ "success" then
    (⟨tour_code, "failed", some ("Navigation: " ++ nav.message), none, none⟩, none)
  else if o.fill.status ≠ "success" then
    (⟨tour_code, "failed", some ("Form fill: " ++ o.fill.message), none, none⟩, none)
  else if o.submitStep.status ≠ "success" then
    (⟨tour_code, "failed", some ("Submit: " ++ o.submitStep.message), none, none⟩,
     some total_amount)
  else
    (⟨tour_code, "success", none, some total_amount, some (o.extract.getD "UNKNOWN")⟩,
     some total_amount)

theorem total_amount_fold_go (items : List Rec) (init : Int) :
    items.foldl (fun acc r => acc + r.amount.getD 0) init = init + signed_sum items := by
  induction items generalizing init with
  | nil => simp [signed_sum]
  | cons r rest ih =>
    simp only [List.foldl_cons, signed_sum, List.map_cons, List.sum_cons]
    rw [ih]
    simp only [signed_sum]
    ring

theorem total_amount_fold_eq (items : List Rec) :
    total_amount_fold items = signed_sum items := by
  unfold total_amount_fold
  rw [total_amount_fold_go]
  ring

/-- C3: the total handed to the company-payment submission and the
`total_amount` reported in a successful group result both equal the signed sum
of the member records' amounts (a missing amount counts as zero, negative
amounts included), and every per-group subtotal shown in the review equals the
signed sum of the group's items. -/
theorem group_total_is_signed_sum :
    (∀ (tc : String) (items : List Rec) (o : BrowserOutcomes) (a : Int),
        (process_tour_group tc items o).2 = some a → a = signed_sum items)
    ∧ (∀ (tc : String) (items : List Rec) (o : BrowserOutcomes),
        (process_tour_group tc items o).1.status = "success" →
        (process_tour_group tc items o).1.total_amount = some (signed_sum items))
    ∧ (∀ (records : List Rec) (et : String) (sect : String × List Rec × Int),
        sect ∈ review_sections records et → sect.2.2 = signed_sum sect.2.1) := by
  refine ⟨?_, ?_, ?_⟩
  · intro tc items o a h
    unfold process_tour_group at h
    simp only [] at h
    split_ifs at h <;> (rw [← Option.some_inj.mp h]; exact total_amount_fold_eq items)
  · intro tc items o h
    unfold process_tour_group at h ⊢
    simp only [] at h ⊢
    split_ifs at h ⊢ <;> simp_all [total_amount_fold_eq]
  · intro records et sect hm
    unfold review_sections at hm
    rcases List.mem_map.mp hm with ⟨kv, _, rfl⟩
    exact total_amount_fold_eq kv.2

/-- Witness for `group_total_is_signed_sum`: a group of two line items, 100
and a -10 commission deduction; the submitted amount and reported total are
90, as is the review subtotal of the same two records. -/
theorem group_total_is_signed_sum_witness :
    ((90 : Int) = signed_sum
      [⟨some "G1", none, some 100, some "flight", some "THB"⟩,
       ⟨some "G1", none, some (-10), some "commission", some "THB"⟩])
    ∧ (process_tour_group "G1"
        [⟨some "G1", none, some 100, some "flight", some "THB"⟩,
         ⟨some "G1", none, some (-10), some "commission", some "THB"⟩]
        ⟨⟨"success", ""⟩, ⟨"success", ""⟩, ⟨"success", ""⟩, ⟨"success", ""⟩,
         ⟨"success", ""⟩, ⟨"success", ""⟩, some "EXP1"⟩).1.total_amount
      = some (signed_sum
        [⟨some "G1", none, some 100, some "flight", some "THB"⟩,
         ⟨some "G1", none, some (-10), some "commission", some "THB"⟩])
    ∧ ("G1",
        [(⟨some "G1", none, some 100, some "flight", some "THB"⟩ : Rec),
         ⟨some "G1", none, some (-10), some "commission", some "THB"⟩],
        (90 : Int)).2.2
      = signed_sum
        ("G1",
         [(⟨some "G1", none, some 100, some "flight", some "THB"⟩ : Rec),
          ⟨some "G1", none, some (-10), some "commission", some "THB"⟩],
         (90 : Int)).2.1 :=
  ⟨group_total_is_signed_sum.1 "G1"
      [⟨some "G1", none, some 100, some "flight", some "THB"⟩,
       ⟨some "G1", none, some (-10), some "commission", some "THB"⟩]
      ⟨⟨"success", ""⟩, ⟨"success", ""⟩, ⟨"success", ""⟩, ⟨"success", ""⟩,
       ⟨"success", ""⟩, ⟨"success", ""⟩, some "EXP1"⟩ 90 (by decide),
   group_total_is_signed_sum.2.1 "G1"
      [⟨some "G1", none, some 100, some "flight", some "THB"⟩,
       ⟨some "G1", none, some (-10), some "commission", some "THB"⟩]
      ⟨⟨"success", ""⟩, ⟨"success", ""⟩, ⟨"success", ""⟩, ⟨"success", ""⟩,
       ⟨"success", ""⟩, ⟨"success", ""⟩, some "EXP1"⟩ (by decide),
   group_total_is_signed_sum.2.2
      [⟨some "G1", none, some 100, some "flight", some "THB"⟩,
       ⟨some "G1", none, some (-10), some "commission", some "THB"⟩] ""
      ("G1",
       [⟨some "G1", none, some 100, some "flight", some "THB"⟩,
        ⟨some "G1", none, some (-10), some "commission", some "THB"⟩],
       90) (by decide)⟩

/-! ### Facts about characters and decimal key suffixes -/

theorem isDigit_val_le (c : Char) (h : c.isDigit = true) : c.val.toNat ≤ 57 := by
  simp only [Char.isDigit, Bool.and_eq_true, decide_eq_true_eq, ge_iff_le] at h
  have h2 := h.2
  rw [UInt32.le_def, BitVec.le_def] at h2
  exact h2

theorem isUpper_val_ge (c : Char) (h : c.isUpper = true) : 65 ≤ c.val.toNat := by
  simp only [Char.isUpper, Bool.and_eq_true, decide_eq_true_eq, ge_iff_le] at h
  have h1 := h.1
  rw [UInt32.le_def, BitVec.le_def] at h1
  exact h1

theorem isLower_val_ge (c : Char) (h : c.isLower = true) : 97 ≤ c.val.toNat := by
  simp only [Char.isLower, Bool.and_eq_true, decide_eq_true_eq, ge_iff_le] at h
  have h1 := h.1
  rw [UInt32.le_def, BitVec.le_def] at h1
  exact h1

theorem isDigit_not_isUpper (c : Char) (h : c.isDigit = true) :
    c.isUpper = false := by
  by_contra h2
  rw [Bool.not_eq_false] at h2
  have := le_trans (isUpper_val_ge c h2) (isDigit_val_le c h)
  omega

theorem isDigit_not_isAlpha (c : Char) (h : c.isDigit = true) :
    c.isAlpha = false := by
  by_contra h2
  rw [Bool.not_eq_false] at h2
  simp only [Char.isAlpha, Bool.or_eq_true] at h2
  rcases h2 with h2 | h2
  · have := le_trans (isUpper_val_ge c h2) (isDigit_val_le c h)
    omega
  · have := le_trans (isLower_val_ge c h2) (isDigit_val_le c h)
    omega

theorem isUpper_isAlpha (c : Char) (h : c.isUpper = true) : c.isAlpha = true := by
  simp [Char.isAlpha, h]

theorem digit_char_isDigit (d : Nat) : (digit_char d).isDigit = true := by
  rcases d with _|_|_|_|_|_|_|_|_|d <;> rfl

theorem digit_val_digit_char (d : Nat) (h : d < 10) :
    digit_val (digit_char d) = d := by
  interval_cases d <;> decide

/-- The value of a decimal digit string (most significant first). -/
def dec_val (l : List Char) : Nat :=
  l.foldl (fun a c => a * 10 + digit_val c) 0

theorem dec_val_concat (l : List Char) (c : Char) :
    dec_val (l ++ [c]) = dec_val l * 10 + digit_val c := by
  simp [dec_val, List.foldl_append]

theorem dec_aux_all_digits (fuel n : Nat) :
    ∀ c ∈ dec_aux fuel n, c.isDigit = true := by
  induction fuel generalizing n with
  | zero => intro c hc; simp [dec_aux] at hc
  | succ fuel ih =>
    intro c hc
    unfold dec_aux at hc
    split at hc
    · simp at hc
      rw [hc]
      exact digit_char_isDigit n
    · rcases List.mem_append.mp hc with hc | hc
      · exact ih (n / 10) c hc
      · simp at hc
        rw [hc]
        exact digit_char_isDigit (n % 10)

theorem dec_aux_val (fuel : Nat) : ∀ n, n < fuel → dec_val (dec_aux fuel n) = n := by
  induction fuel with
  | zero => intro n h; omega
  | succ fuel ih =>
    intro n h
    unfold dec_aux
    split
    · rename_i h10
      simp [dec_val, digit_val_digit_char n h10]
    · rename_i h10
      rw [dec_val_concat, ih (n / 10) (by omega), digit_val_digit_char (n % 10) (by omega)]
      omega

theorem dec_val_dec_repr (n : Nat) : dec_val (dec_repr n) = n :=
  dec_aux_val (n + 1) n (Nat.lt_succ_self n)

theorem dec_repr_all_digits (n : Nat) : ∀ c ∈ dec_repr n, c.isDigit = true :=
  dec_aux_all_digits (n + 1) n

theorem takeWhile_all_append (p : Char → Bool) (l1 : List Char) (a : Char)
    (l2 : List Char) (h1 : ∀ x ∈ l1, p x = true) (h2 : p a = false) :
    (l1 ++ a :: l2).takeWhile p = l1 := by
  induction l1 with
  | nil => simp [List.takeWhile, h2]
  | cons x xs ih =>
    have hx : p x = true := h1 x (by simp)
    simp only [List.cons_append, List.takeWhile_cons, hx, if_true]
    rw [ih (fun y hy => h1 y (List.mem_cons_of_mem _ hy))]

theorem string_append_data (s t : String) : (s ++ t).data = s.data ++ t.data := by
  cases s; cases t; rfl

theorem string_mk_data (l : List Char) : (String.mk l).data = l := rfl

/-- The maximal decimal suffix of a key, as a number: recovers `i` from
`f"{tc}__item{i}"`. -/
def suffix_val (k : String) : Nat :=
  dec_val ((k.data.reverse.takeWhile Char.isDigit).reverse)

theorem suffix_val_split_key (tc : String) (i : Nat) :
    suffix_val (split_key tc i) = i := by
  unfold suffix_val split_key
  rw [string_append_data, string_append_data, string_mk_data]
  rw [List.append_assoc, List.reverse_append]
  have hrev : ("__item".data ++ dec_repr i).reverse
      = (dec_repr i).reverse ++ ('m' :: (['e', 't', 'i', '_', '_'])) := by
    rw [List.reverse_append]
    have : "__item".data.reverse = 'm' :: (['e', 't', 'i', '_', '_']) := by decide
    rw [this]
  rw [hrev, List.append_assoc]
  have hshape : (['m', 'e', 't', 'i', '_', '_'] : List Char) ++ tc.data.reverse
      = 'm' :: (['e', 't', 'i', '_', '_'] ++ tc.data.reverse) := rfl
  rw [hshape]
  rw [takeWhile_all_append Char.isDigit ((dec_repr i).reverse) 'm'
      (['e', 't', 'i', '_', '_'] ++ tc.data.reverse)
      (fun x hx => dec_repr_all_digits i x (List.mem_reverse.mp hx))
      (by decide)]
  rw [List.reverse_reverse]
  exact dec_val_dec_repr i

theorem dset_length_of_none {α : Type} (d : Dict α) (k : String) (v : α)
    (h : dlookup d k = none) : (dset d k v).length = d.length + 1 := by
  induction d with
  | nil => simp [dset]
  | cons hd tl ih =>
    obtain ⟨k', w⟩ := hd
    by_cases h2 : k' = k
    · simp [dlookup, h2] at h
    · simp [dlookup, h2] at h
      simp [dset, h2, ih h]

/-- Every key produced so far in split mode decodes to an index below `i`,
so the key of the `i`-th record is always fresh. -/
theorem split_go_length (rs : List Rec) :
    ∀ (i : Nat) (g : Dict (List Rec)),
    (∀ k ∈ dkeys g, suffix_val k < i) →
    (split_go i rs g).length = g.length + rs.length := by
  induction rs with
  | nil => intro i g _; simp [split_go]
  | cons r rest ih =>
    intro i g hinv
    unfold split_go
    have hnotmem : split_key (raw_tour_code r) i ∉ dkeys g := by
      intro hmem
      have := hinv _ hmem
      rw [suffix_val_split_key] at this
      omega
    have hnone : dlookup g (split_key (raw_tour_code r) i) = none :=
      (dlookup_eq_none_iff_not_mem _ _).mpr hnotmem
    rw [ih (i + 1) _ ?_]
    · rw [dset_length_of_none _ _ _ hnone]
      simp only [List.length_cons]
      omega
    · intro k hk
      rw [dkeys_dset_not_mem _ _ _ hnotmem] at hk
      rcases List.mem_append.mp hk with hk | hk
      · exact lt_trans (hinv k hk) (Nat.lt_succ_self i)
      · simp at hk
        rw [hk, suffix_val_split_key]
        omega

theorem split_go_singletons (rs : List Rec) :
    ∀ (i : Nat) (g : Dict (List Rec)),
    (∀ kv ∈ g, ∃ x, kv.2 = [x]) →
    ∀ kv ∈ split_go i rs g, ∃ x, kv.2 = [x] := by
  induction rs with
  | nil => intro i g hinv; exact hinv
  | cons r rest ih =>
    intro i g hinv
    unfold split_go
    refine ih (i + 1) _ ?_
    intro kv hkv
    rcases dmem_dset _ _ _ _ hkv with h | h
    · exact hinv kv h
    · exact ⟨r, by rw [h]⟩

theorem dlookup_append_single_cases {α : Type} (d : Dict α) (k0 : String)
    (v0 : α) (nc : String) (c : α) (h : dlookup (d ++ [(k0, v0)]) nc = some c) :
    dlookup d nc = some c ∨ (dlookup d nc = none ∧ nc = k0 ∧ c = v0) := by
  cases hd : dlookup d nc with
  | some w =>
    rw [dlookup_append_left _ _ _ _ hd] at h
    exact Or.inl h
  | none =>
    rw [dlookup_append_right _ _ _ hd] at h
    by_cases h2 : k0 = nc
    · simp [dlookup, h2] at h
      exact Or.inr ⟨rfl, h2.symm, h.symm⟩
    · simp [dlookup, h2] at h

theorem dlookup_append_single_self {α : Type} (d : Dict α) (k0 : String)
    (v0 : α) (h : dlookup d k0 = none) :
    dlookup (d ++ [(k0, v0)]) k0 = some v0 := by
  rw [dlookup_append_right _ _ _ h]
  simp [dlookup]

theorem setdefault_append_lookup_self (g : Dict (List Rec)) (k : String) (r : Rec) :
    dlookup (setdefault_append g k r) k = some ((dlookup g k).getD [] ++ [r]) := by
  unfold setdefault_append
  cases h : dlookup g k with
  | some items => simp [dlookup_dset_self, h]
  | none => simp [dlookup_append_single_self _ _ _ h, h]

theorem setdefault_append_lookup_ne (g : Dict (List Rec)) (k : String) (r : Rec)
    (k' : String) (h : k ≠ k') :
    dlookup (setdefault_append g k r) k' = dlookup g k' := by
  unfold setdefault_append
  cases hg : dlookup g k with
  | some items => exact dlookup_dset_ne _ _ _ _ h
  | none =>
    cases hk' : dlookup g k' with
    | some w => exact dlookup_append_left _ _ _ _ hk'
    | none =>
      rw [dlookup_append_right _ _ _ hk']
      simp [dlookup, h]

theorem setdefault_append_dkeys_mem (g : Dict (List Rec)) (k : String) (r : Rec)
    (h : k ∈ dkeys g) : dkeys (setdefault_append g k r) = dkeys g := by
  unfold setdefault_append
  cases hg : dlookup g k with
  | some items => exact dkeys_dset_mem _ _ _ h
  | none => exact absurd h ((dlookup_eq_none_iff_not_mem _ _).mp hg)

theorem setdefault_append_dkeys_not_mem (g : Dict (List Rec)) (k : String) (r : Rec)
    (h : k ∉ dkeys g) : dkeys (setdefault_append g k r) = dkeys g ++ [k] := by
  unfold setdefault_append
  rw [(dlookup_eq_none_iff_not_mem _ _).mpr h]
  simp [dkeys]

/-- The loop invariant of combine-mode pass 1: `nm` is `norm_to_canonical`,
`g` is `grouped`, `processed` the records handled so far. -/
structure Pass1Inv (nm : Dict String) (g : Dict (List Rec))
    (processed : List Rec) : Prop where
  canonical_mem : ∀ nc c, dlookup nm nc = some c → c ∈ dkeys g
  count_eq : (dkeys g).length = (dkeys nm).length
  norm_iff : ∀ nc, (dlookup nm nc).isSome ↔ nc ∈ processed.map norm_of
  keys_from_nm : ∀ k ∈ dkeys g, ∃ nc, dlookup nm nc = some k
  canonical_norm : ∀ nc c, dlookup nm nc = some c → normalize_tour_code c = nc
  nm_nodup : (dkeys nm).Nodup
  mem_group : ∀ r ∈ processed, ∃ k items, dlookup nm (norm_of r) = some k
      ∧ dlookup g k = some items ∧ r ∈ items
  g_nodup : (dkeys g).Nodup

theorem pass1_inv_nil : Pass1Inv [] [] [] := by
  refine ⟨?_, ?_, ?_, ?_, ?_, ?_, ?_, ?_⟩ <;> simp [dlookup]

theorem pass1_inv_step_some (nm : Dict String) (g : Dict (List Rec))
    (processed : List Rec) (r : Rec) (canonical : String)
    (hinv : Pass1Inv nm g processed)
    (hc : dlookup nm (norm_of r) = some canonical) :
    Pass1Inv nm (setdefault_append g canonical r) (processed ++ [r]) := by
  have hmemk : canonical ∈ dkeys g := hinv.canonical_mem _ _ hc
  obtain ⟨items, hitems⟩ : ∃ items, dlookup g canonical = some items := by
    cases hg : dlookup g canonical with
    | some items => exact ⟨items, rfl⟩
    | none => exact absurd hmemk ((dlookup_eq_none_iff_not_mem _ _).mp hg)
  have hkeys : dkeys (setdefault_append g canonical r) = dkeys g :=
    setdefault_append_dkeys_mem _ _ _ hmemk
  refine ⟨?_, ?_, ?_, ?_, ?_, ?_, ?_, ?_⟩
  · intro nc c h
    rw [hkeys]
    exact hinv.canonical_mem _ _ h
  · rw [hkeys]
    exact hinv.count_eq
  · intro nc
    rw [List.map_append, List.mem_append]
    constructor
    · intro hs
      exact Or.inl ((hinv.norm_iff nc).mp hs)
    · intro hm
      rcases hm with hm | hm
      · exact (hinv.norm_iff nc).mpr hm
      · simp at hm
        rw [hm, hc]
        rfl
  · intro k hk
    rw [hkeys] at hk
    exact hinv.keys_from_nm k hk
  · exact hinv.canonical_norm
  · exact hinv.nm_nodup
  · intro r' hr'
    rcases List.mem_append.mp hr' with hr' | hr'
    · obtain ⟨k, items', h1, h2, h3⟩ := hinv.mem_group r' hr'
      by_cases hkc : k = canonical
      · subst hkc
        have hii : items' = items := Option.some_inj.mp (h2.symm.trans hitems)
        refine ⟨k, items ++ [r], h1, ?_, ?_⟩
        · rw [setdefault_append_lookup_self, hitems]
          rfl
        · exact List.mem_append_left _ (hii ▸ h3)
      · exact ⟨k, items', h1,
          by rw [setdefault_append_lookup_ne _ _ _ _ (fun he => hkc he.symm)]; exact h2, h3⟩
    · simp at hr'
      rw [hr']
      refine ⟨canonical, items ++ [r], hc, ?_, List.mem_append_right _ (by simp)⟩
      rw [setdefault_append_lookup_self, hitems]
      rfl
  · rw [hkeys]
    exact hinv.g_nodup

theorem pass1_inv_step_none (nm : Dict String) (g : Dict (List Rec))
    (processed : List Rec) (r : Rec)
    (hinv : Pass1Inv nm g processed)
    (hn : dlookup nm (norm_of r) = none) :
    Pass1Inv (nm ++ [(norm_of r, raw_tour_code r)])
      (setdefault_append g (raw_tour_code r) r) (processed ++ [r]) := by
  have hraw_not : raw_tour_code r ∉ dkeys g := by
    intro hm
    obtain ⟨nc, hnc⟩ := hinv.keys_from_nm _ hm
    have hnorm := hinv.canonical_norm _ _ hnc
    have : dlookup nm (norm_of r) = some (raw_tour_code r) := by
      rw [show norm_of r = nc from hnorm ▸ rfl]
      exact hnc
    rw [hn] at this
    exact Option.noConfusion this
  have hraw_none : dlookup g (raw_tour_code r) = none :=
    (dlookup_eq_none_iff_not_mem _ _).mpr hraw_not
  have hkeys : dkeys (setdefault_append g (raw_tour_code r) r)
      = dkeys g ++ [raw_tour_code r] :=
    setdefault_append_dkeys_not_mem _ _ _ hraw_not
  have hself : dlookup (nm ++ [(norm_of r, raw_tour_code r)]) (norm_of r)
      = some (raw_tour_code r) :=
    dlookup_append_single_self _ _ _ hn
  refine ⟨?_, ?_, ?_, ?_, ?_, ?_, ?_, ?_⟩
  · intro nc c h
    rw [hkeys, List.mem_append]
    rcases dlookup_append_single_cases _ _ _ _ _ h with h2 | ⟨_, _, h4⟩
    · exact Or.inl (hinv.canonical_mem _ _ h2)
    · exact Or.inr (by simp [h4])
  · rw [hkeys]
    have : dkeys (nm ++ [(norm_of r, raw_tour_code r)]) = dkeys nm ++ [norm_of r] := by
      simp [dkeys]
    rw [this]
    simp [hinv.count_eq]
  · intro nc
    rw [List.map_append, List.mem_append]
    cases hcur : dlookup nm nc with
    | some c =>
      rw [dlookup_append_left _ _ _ _ hcur]
      simp only [Option.isSome_some, true_iff]
      exact Or.inl ((hinv.norm_iff nc).mp (by rw [hcur]; rfl))
    | none =>
      rw [dlookup_append_right _ _ _ hcur]
      have hold : nc ∉ processed.map norm_of := by
        intro hm
        have := (hinv.norm_iff nc).mpr hm
        rw [hcur] at this
        exact Bool.noConfusion this
      by_cases h2 : norm_of r = nc
      · simp [dlookup, h2, hold]
      · simp [dlookup, h2, hold]
        exact fun he => h2 he.symm
  · intro k hk
    rw [hkeys, List.mem_append] at hk
    rcases hk with hk | hk
    · obtain ⟨nc, hnc⟩ := hinv.keys_from_nm k hk
      exact ⟨nc, dlookup_append_left _ _ _ _ hnc⟩
    · simp at hk
      exact ⟨norm_of r, by rw [hk]; exact hself⟩
  · intro nc c h
    rcases dlookup_append_single_cases _ _ _ _ _ h with h2 | ⟨_, h3, h4⟩
    · exact hinv.canonical_norm _ _ h2
    · rw [h4, h3]
      rfl
  · have : dkeys (nm ++ [(norm_of r, raw_tour_code r)]) = dkeys nm ++ [norm_of r] := by
      simp [dkeys]
    rw [this]
    have hnot : norm_of r ∉ dkeys nm := (dlookup_eq_none_iff_not_mem _ _).mp hn
    simp [List.nodup_append, hinv.nm_nodup, hnot]
  · intro r' hr'
    rcases List.mem_append.mp hr' with hr' | hr'
    · obtain ⟨k, items', h1, h2, h3⟩ := hinv.mem_group r' hr'
      have hkne : raw_tour_code r ≠ k := by
        intro he
        exact hraw_not (he ▸ hinv.canonical_mem _ _ h1)
      exact ⟨k, items', dlookup_append_left _ _ _ _ h1,
        by rw [setdefault_append_lookup_ne _ _ _ _ hkne]; exact h2, h3⟩
    · simp at hr'
      rw [hr']
      refine ⟨raw_tour_code r, [r], hself, ?_, by simp⟩
      rw [setdefault_append_lookup_self, hraw_none]
      rfl
  · rw [hkeys]
    have : raw_tour_code r ∉ dkeys g := hraw_not
    simp [List.nodup_append, hinv.g_nodup, this]

theorem pass1_go_inv (rest : List Rec) :
    ∀ (nm : Dict String) (g : Dict (List Rec)) (processed : List Rec),
    Pass1Inv nm g processed →
    Pass1Inv (pass1_go rest nm g).1 (pass1_go rest nm g).2 (processed ++ rest) := by
  induction rest with
  | nil =>
    intro nm g processed hinv
    simpa [pass1_go] using hinv
  | cons r rest ih =>
    intro nm g processed hinv
    have hsplit : processed ++ r :: rest = (processed ++ [r]) ++ rest := by simp
    rw [hsplit]
    unfold pass1_go
    cases hc : dlookup nm (norm_of r) with
    | some canonical =>
      exact ih _ _ _ (pass1_inv_step_some nm g processed r canonical hinv hc)
    | none =>
      exact ih _ _ _ (pass1_inv_step_none nm g processed r hinv hc)

/-- The invariant holds of the completed pass 1. -/
theorem pass1_inv_final (records : List Rec) :
    Pass1Inv (pass1_go records [] []).1 (pass1_go records [] []).2 records := by
  have := pass1_go_inv records [] [] [] pass1_inv_nil
  simpa using this

theorem setdefault_extend_lookup_self (g : Dict (List Rec)) (k : String)
    (items : List Rec) :
    dlookup (setdefault_extend g k items) k
      = some ((dlookup g k).getD [] ++ items) := by
  unfold setdefault_extend
  cases h : dlookup g k with
  | some old => simp [dlookup_dset_self, h]
  | none => simp [dlookup_append_single_self _ _ _ h, h]

theorem setdefault_extend_lookup_ne (g : Dict (List Rec)) (k : String)
    (items : List Rec) (k' : String) (h : k ≠ k') :
    dlookup (setdefault_extend g k items) k' = dlookup g k' := by
  unfold setdefault_extend
  cases hg : dlookup g k with
  | some old => exact dlookup_dset_ne _ _ _ _ h
  | none =>
    cases hk' : dlookup g k' with
    | some w => exact dlookup_append_left _ _ _ _ hk'
    | none =>
      rw [dlookup_append_right _ _ _ hk']
      simp [dlookup, h]

theorem setdefault_extend_dkeys_mem (g : Dict (List Rec)) (k : String)
    (items : List Rec) (h : k ∈ dkeys g) :
    dkeys (setdefault_extend g k items) = dkeys g := by
  unfold setdefault_extend
  cases hg : dlookup g k with
  | some old => exact dkeys_dset_mem _ _ _ h
  | none => exact absurd h ((dlookup_eq_none_iff_not_mem _ _).mp hg)

theorem setdefault_extend_dkeys_not_mem (g : Dict (List Rec)) (k : String)
    (items : List Rec) (h : k ∉ dkeys g) :
    dkeys (setdefault_extend g k items) = dkeys g ++ [k] := by
  unfold setdefault_extend
  rw [(dlookup_eq_none_iff_not_mem _ _).mpr h]
  simp [dkeys]

theorem merge_fold_keys (mm : Dict String) (l : List (String × List Rec)) :
    ∀ (acc : Dict (List Rec)), (dkeys acc).Nodup →
    (dkeys (l.foldl
        (fun acc kv => setdefault_extend acc ((dlookup mm kv.1).getD kv.1) kv.2)
        acc)).Nodup
    ∧ (dkeys (l.foldl
        (fun acc kv => setdefault_extend acc ((dlookup mm kv.1).getD kv.1) kv.2)
        acc)).toFinset
      = (dkeys acc).toFinset
          ∪ (l.map (fun kv => (dlookup mm kv.1).getD kv.1)).toFinset := by
  induction l with
  | nil =>
    intro acc hnd
    exact ⟨hnd, by simp⟩
  | cons kv rest ih =>
    intro acc hnd
    rw [List.foldl_cons]
    by_cases hmem : (dlookup mm kv.1).getD kv.1 ∈ dkeys acc
    · have hkeq : dkeys (setdefault_extend acc ((dlookup mm kv.1).getD kv.1) kv.2)
          = dkeys acc := setdefault_extend_dkeys_mem _ _ _ hmem
      obtain ⟨hn, hf⟩ := ih _ (hkeq ▸ hnd)
      refine ⟨hn, ?_⟩
      rw [hf, hkeq]
      ext x
      simp only [Finset.mem_union, List.mem_toFinset, List.map_cons, List.mem_cons]
      constructor
      · intro hx
        tauto
      · intro hx
        rcases hx with hx | hx | hx
        · exact Or.inl hx
        · exact Or.inl (hx ▸ hmem)
        · exact Or.inr hx
    · have hkeq : dkeys (setdefault_extend acc ((dlookup mm kv.1).getD kv.1) kv.2)
          = dkeys acc ++ [(dlookup mm kv.1).getD kv.1] :=
        setdefault_extend_dkeys_not_mem _ _ _ hmem
      have hnd' : (dkeys (setdefault_extend acc ((dlookup mm kv.1).getD kv.1) kv.2)).Nodup := by
        rw [hkeq]
        simp [List.nodup_append, hnd, hmem]
      obtain ⟨hn, hf⟩ := ih _ hnd'
      refine ⟨hn, ?_⟩
      rw [hf, hkeq]
      ext x
      simp only [Finset.mem_union, List.mem_toFinset, List.map_cons, List.mem_cons,
        List.mem_append, List.mem_singleton]
      tauto

theorem merge_fold_mono (mm : Dict String) (l : List (String × List Rec)) :
    ∀ (acc : Dict (List Rec)) (k : String) (its : List Rec),
    dlookup acc k = some its →
    ∃ its', dlookup (l.foldl
        (fun acc kv => setdefault_extend acc ((dlookup mm kv.1).getD kv.1) kv.2)
        acc) k = some its' ∧ ∀ x ∈ its, x ∈ its' := by
  induction l with
  | nil =>
    intro acc k its h
    exact ⟨its, h, fun x hx => hx⟩
  | cons kv rest ih =>
    intro acc k its h
    rw [List.foldl_cons]
    by_cases hk : (dlookup mm kv.1).getD kv.1 = k
    · have hl : dlookup (setdefault_extend acc ((dlookup mm kv.1).getD kv.1) kv.2) k
          = some (its ++ kv.2) := by
        rw [hk, setdefault_extend_lookup_self, h]
        rfl
      obtain ⟨its', h1, h2⟩ := ih _ k (its ++ kv.2) hl
      exact ⟨its', h1, fun x hx => h2 x (List.mem_append_left _ hx)⟩
    · have hl : dlookup (setdefault_extend acc ((dlookup mm kv.1).getD kv.1) kv.2) k
          = some its := by
        rw [setdefault_extend_lookup_ne _ _ _ _ hk]
        exact h
      exact ih _ k its hl

theorem merge_fold_hits (mm : Dict String) (l : List (String × List Rec)) :
    ∀ (acc : Dict (List Rec)) (kv : String × List Rec), kv ∈ l →
    ∃ its', dlookup (l.foldl
        (fun acc kv => setdefault_extend acc ((dlookup mm kv.1).getD kv.1) kv.2)
        acc) ((dlookup mm kv.1).getD kv.1) = some its' ∧ ∀ x ∈ kv.2, x ∈ its' := by
  induction l with
  | nil => intro acc kv h; simp at h
  | cons kv0 rest ih =>
    intro acc kv h
    rw [List.foldl_cons]
    rcases List.mem_cons.mp h with h | h
    · subst h
      have hl : dlookup (setdefault_extend acc ((dlookup mm kv.1).getD kv.1) kv.2)
          ((dlookup mm kv.1).getD kv.1)
          = some ((dlookup acc ((dlookup mm kv.1).getD kv.1)).getD [] ++ kv.2) :=
        setdefault_extend_lookup_self _ _ _
      obtain ⟨its', h1, h2⟩ := merge_fold_mono mm rest _ _ _ hl
      exact ⟨its', h1, fun x hx => h2 x (List.mem_append_right _ hx)⟩
    · exact ih _ kv h

/-! ### Spec-side views of combine-mode grouping -/

/-- The finished pass 1: `(norm_to_canonical, grouped)`. -/
abbrev pass1_of (records : List Rec) : Dict String × Dict (List Rec) :=
  pass1_go records [] []

/-- The canonical key (first raw tour code) of a normalised code. -/
def canon_of (records : List Rec) (nc : String) : String :=
  (dlookup (pass1_of records).1 nc).getD nc

/-- The finished `merge_map` of pass 2. -/
def merge_map_of (records : List Rec) : Dict String :=
  (pass2_go (pass1_of records).2 [] []).2

/-- Where a canonical key is redirected by the program-code merge. -/
def merge_target_of (records : List Rec) (c : String) : String :=
  (dlookup (merge_map_of records) c).getD c

/-- The key a record's group ends up under after both passes. -/
def final_key_of (records : List Rec) (r : Rec) : String :=
  merge_target_of records (canon_of records (norm_of r))

/-- Two records end up in the same group of `g`. -/
abbrev SameGroup (g : Dict (List Rec)) (r1 r2 : Rec) : Prop :=
  ∃ kv ∈ g, r1 ∈ kv.2 ∧ r2 ∈ kv.2

theorem list_toFinset_map (l : List String) (f : String → String) :
    (l.map f).toFinset = l.toFinset.image f := by
  ext a
  simp

theorem pass1_count (records : List Rec) :
    ((pass1_of records).2).length = ((records.map norm_of).toFinset).card := by
  have hinv := pass1_inv_final records
  have h1 : ((pass1_of records).2).length = (dkeys (pass1_of records).2).length := by
    simp [dkeys]
  have h3 : (dkeys (pass1_of records).1).toFinset = (records.map norm_of).toFinset := by
    ext x
    simp only [List.mem_toFinset]
    rw [← dlookup_isSome_iff_mem_dkeys]
    exact hinv.norm_iff x
  rw [h1, hinv.count_eq, ← List.toFinset_card_of_nodup hinv.nm_nodup, h3]

theorem pass1_keys_image (records : List Rec) :
    (dkeys (pass1_of records).2).toFinset
      = (records.map (fun r => canon_of records (norm_of r))).toFinset := by
  have hinv := pass1_inv_final records
  ext x
  simp only [List.mem_toFinset, List.mem_map]
  constructor
  · intro hx
    obtain ⟨nc, hnc⟩ := hinv.keys_from_nm x hx
    have hsome : (dlookup (pass1_of records).1 nc).isSome = true := by
      rw [hnc]
      rfl
    obtain ⟨r, hr, hnr⟩ := List.mem_map.mp ((hinv.norm_iff nc).mp hsome)
    refine ⟨r, hr, ?_⟩
    unfold canon_of
    rw [hnr, hnc]
    rfl
  · rintro ⟨r, hr, rfl⟩
    obtain ⟨k, items, ha, hb, _⟩ := hinv.mem_group r hr
    have hck : canon_of records (norm_of r) = k := by
      unfold canon_of
      rw [ha]
      rfl
    rw [hck]
    exact hinv.canonical_mem _ _ ha

theorem canon_of_inj (records : List Rec) (r1 r2 : Rec)
    (h1 : r1 ∈ records) (h2 : r2 ∈ records) :
    canon_of records (norm_of r1) = canon_of records (norm_of r2)
      ↔ norm_of r1 = norm_of r2 := by
  have hinv := pass1_inv_final records
  obtain ⟨k1, items1, ha1, _, _⟩ := hinv.mem_group r1 h1
  obtain ⟨k2, items2, ha2, _, _⟩ := hinv.mem_group r2 h2
  have hc1 : canon_of records (norm_of r1) = k1 := by
    unfold canon_of
    rw [ha1]
    rfl
  have hc2 : canon_of records (norm_of r2) = k2 := by
    unfold canon_of
    rw [ha2]
    rfl
  constructor
  · intro h
    rw [hc1, hc2] at h
    subst h
    have e1 := hinv.canonical_norm _ _ ha1
    have e2 := hinv.canonical_norm _ _ ha2
    rw [← e1, ← e2]
  · intro h
    rw [h]

theorem apply_merge_length (g : Dict (List Rec)) (mm : Dict String)
    (hnd : (dkeys g).Nodup) :
    (apply_merge g mm).length
      = ((dkeys g).map (fun c => (dlookup mm c).getD c)).toFinset.card := by
  unfold apply_merge
  by_cases hmm : mm = []
  · rw [if_pos hmm]
    subst hmm
    have himg : (dkeys g).map (fun c => (dlookup ([] : Dict String) c).getD c)
        = dkeys g := by
      simp [dlookup]
    rw [himg, List.toFinset_card_of_nodup hnd]
    simp [dkeys]
  · rw [if_neg hmm]
    obtain ⟨hn, hf⟩ := merge_fold_keys mm g [] (by simp)
    have hcard := List.toFinset_card_of_nodup hn
    rw [hf] at hcard
    have hmaps : g.map (fun kv => (dlookup mm kv.1).getD kv.1)
        = (dkeys g).map (fun c => (dlookup mm c).getD c) := by
      simp [dkeys, List.map_map]
    rw [hmaps] at hcard
    simp only [dkeys_nil, List.toFinset_nil, Finset.empty_union] at hcard
    rw [hcard]
    simp [dkeys]

theorem apply_merge_same_group (g : Dict (List Rec)) (mm : Dict String)
    (k : String) (items : List Rec) (r1 r2 : Rec)
    (h : dlookup g k = some items) (h1 : r1 ∈ items) (h2 : r2 ∈ items) :
    SameGroup (apply_merge g mm) r1 r2 := by
  unfold apply_merge
  by_cases hmm : mm = []
  · rw [if_pos hmm]
    exact ⟨(k, items), dmem_of_dlookup _ _ _ h, h1, h2⟩
  · rw [if_neg hmm]
    have hkv : (k, items) ∈ g := dmem_of_dlookup _ _ _ h
    obtain ⟨its', ha, hb⟩ := merge_fold_hits mm g [] (k, items) hkv
    exact ⟨((dlookup mm k).getD k, its'), dmem_of_dlookup _ _ _ ha, hb r1 h1, hb r2 h2⟩


theorem normalize_stripped_concat_letter (t1 : List Char) (c b : Char)
    (hc : c.isUpper = true) (hlen : 6 ≤ t1.length)
    (hb : t1.getLast? = some b) (hbd : b.isDigit = true) :
    normalize_stripped ⟨t1 ++ [c]⟩ = ⟨t1⟩ := by
  obtain ⟨rest, hrev⟩ : ∃ rest, t1.reverse = b :: rest := by
    cases hr : t1.reverse with
    | nil =>
      rw [← List.head?_reverse, hr] at hb
      exact absurd hb (by simp)
    | cons x xs =>
      rw [← List.head?_reverse, hr] at hb
      simp at hb
      exact ⟨xs, by rw [hb]⟩
  have hbase : ((t1 ++ [c]).reverse.dropWhile Char.isUpper).reverse = t1 := by
    rw [List.reverse_append]
    have h1 : (([c].reverse ++ t1.reverse) : List Char) = c :: t1.reverse := by simp
    rw [h1, List.dropWhile_cons, if_pos (by rw [hc] : Char.isUpper c = true)]
    rw [hrev, List.dropWhile_cons,
      if_neg (by rw [isDigit_not_isUpper b hbd]; exact Bool.false_ne_true)]
    rw [← hrev, List.reverse_reverse]
  unfold normalize_stripped
  rw [string_mk_data, List.getLast?_concat]
  simp only []
  rw [if_pos ⟨isUpper_isAlpha c hc, by simp; omega⟩]
  rw [hbase, hb]
  simp only []
  rw [if_pos ⟨hlen, hbd⟩]

theorem normalize_stripped_digit_end (t1 : List Char) (b : Char)
    (hb : t1.getLast? = some b) (hbd : b.isDigit = true) :
    normalize_stripped ⟨t1⟩ = ⟨t1⟩ := by
  unfold normalize_stripped
  rw [string_mk_data, hb]
  simp only []
  rw [if_neg (by rw [isDigit_not_isAlpha b hbd]; simp)]

/-- A code of the form `base ++ [letter]` with `base` at least 6 characters
long and ending in a digit normalises to the same code as `base` itself. -/
theorem normalize_trailing_letter (t1 : List Char) (c b : Char)
    (tc0 tc1 : String)
    (h0 : py_upper (py_strip tc0) = ⟨t1 ++ [c]⟩)
    (h1 : py_upper (py_strip tc1) = ⟨t1⟩)
    (hc : c.isUpper = true) (hlen : 6 ≤ t1.length)
    (hb : t1.getLast? = some b) (hbd : b.isDigit = true) :
    normalize_tour_code tc0 = normalize_tour_code tc1 := by
  unfold normalize_tour_code
  rw [h0, h1, normalize_stripped_concat_letter t1 c b hc hlen hb hbd,
    normalize_stripped_digit_end t1 b hb hbd]

/-- C2 (counterexample): `AB1` and `AB1B` differ only by a trailing
single-letter suffix, yet combine mode puts them in two different groups —
the suffix stripping in `_normalize_tour_code` requires the code to be longer
than 6 characters. -/
theorem grouping_suffix_counterexample :
    (group_records_by_tour
        [⟨some "AB1", none, some 100, none, none⟩,
         ⟨some "AB1B", none, some 50, none, none⟩] "").length = 2
    ∧ ¬ SameGroup
        (group_records_by_tour
          [⟨some "AB1", none, some 100, none, none⟩,
           ⟨some "AB1B", none, some 50, none, none⟩] "")
        ⟨some "AB1", none, some 100, none, none⟩
        ⟨some "AB1B", none, some 50, none, none⟩ := by
  decide

/-- C2 (amended): in split mode (`flight`/`insurance`/`misc`) the grouping
yields one singleton group per input record; in combine mode (any other
`expense_type`, including the empty string and `land_tour`) the number of
groups equals the number of distinct values of
merge-target ∘ canonical-key ∘ normalised-code over the records, where
canonical keys are in bijection with the distinct normalised order codes, and
two records whose normalised codes agree always land in the same group; a
code of the form `base ++ letter` normalises like `base` whenever `base` is
at least 6 characters and ends in a digit (e.g. `ABC123` vs `ABC123B`). -/
theorem grouping_behaviour :
    (∀ (records : List Rec) (et : String),
        (et = "flight" ∨ et = "insurance" ∨ et = "misc") →
        (group_records_by_tour records et).length = records.length
        ∧ ∀ kv ∈ group_records_by_tour records et, ∃ x, kv.2 = [x])
    ∧ (∀ (records : List Rec) (et : String),
        ¬(et = "flight" ∨ et = "insurance" ∨ et = "misc") →
        (group_records_by_tour records et).length
          = ((records.map (final_key_of records)).toFinset).card)
    ∧ (∀ records : List Rec,
        ((pass1_of records).2).length = ((records.map norm_of).toFinset).card)
    ∧ (∀ (records : List Rec) (r1 r2 : Rec), r1 ∈ records → r2 ∈ records →
        (canon_of records (norm_of r1) = canon_of records (norm_of r2)
          ↔ norm_of r1 = norm_of r2))
    ∧ (∀ (records : List Rec) (et : String),
        ¬(et = "flight" ∨ et = "insurance" ∨ et = "misc") →
        ∀ (r1 r2 : Rec), r1 ∈ records → r2 ∈ records →
        norm_of r1 = norm_of r2 →
        SameGroup (group_records_by_tour records et) r1 r2)
    ∧ (∀ (t1 : List Char) (c b : Char) (tc0 tc1 : String),
        py_upper (py_strip tc0) = ⟨t1 ++ [c]⟩ →
        py_upper (py_strip tc1) = ⟨t1⟩ →
        c.isUpper = true → 6 ≤ t1.length →
        t1.getLast? = some b → b.isDigit = true →
        normalize_tour_code tc0 = normalize_tour_code tc1) := by
  refine ⟨?_, ?_, ?_, ?_, ?_, ?_⟩
  · intro records et hsplit
    unfold group_records_by_tour
    rw [if_pos hsplit]
    constructor
    · have h := split_go_length records 0 [] (by simp)
      simpa using h
    · exact split_go_singletons records 0 [] (by simp)
  · intro records et het
    unfold group_records_by_tour
    rw [if_neg het]
    simp only []
    rw [apply_merge_length _ _ (pass1_inv_final records).g_nodup]
    congr 1
    rw [list_toFinset_map, pass1_keys_image records, ← list_toFinset_map]
    rw [List.map_map]
    rfl
  · exact pass1_count
  · exact canon_of_inj
  · intro records et het r1 r2 h1 h2 hn
    unfold group_records_by_tour
    rw [if_neg het]
    simp only []
    have hinv := pass1_inv_final records
    obtain ⟨k1, items1, ha1, hb1, hc1⟩ := hinv.mem_group r1 h1
    obtain ⟨k2, items2, ha2, hb2, hc2⟩ := hinv.mem_group r2 h2
    rw [hn] at ha1
    have hk : k1 = k2 := Option.some_inj.mp (ha1.symm.trans ha2)
    subst hk
    have hi : items1 = items2 := Option.some_inj.mp (hb1.symm.trans hb2)
    exact apply_merge_same_group _ _ k1 items1 r1 r2 hb1 hc1 (hi ▸ hc2)
  · exact normalize_trailing_letter

/-- Witness for `grouping_behaviour`: split mode on two same-code records
gives two groups; combine mode on `ABC123`/`ABC123B` gives the computed
number of distinct final keys; the two records share one group; and
`ABC123B` normalises exactly like `ABC123`. -/
theorem grouping_behaviour_witness :
    (group_records_by_tour
        [⟨some "G1", none, some 100, none, none⟩,
         ⟨some "G1", none, some 50, none, none⟩] "flight").length
      = ([⟨some "G1", none, some 100, none, none⟩,
          ⟨some "G1", none, some 50, none, none⟩] : List Rec).length
    ∧ (group_records_by_tour
        [⟨some "ABC123", none, some 100, none, none⟩,
         ⟨some "ABC123B", none, some 50, none, none⟩] "").length
      = ((([⟨some "ABC123", none, some 100, none, none⟩,
            ⟨some "ABC123B", none, some 50, none, none⟩] : List Rec).map
          (final_key_of
            [⟨some "ABC123", none, some 100, none, none⟩,
             ⟨some "ABC123B", none, some 50, none, none⟩])).toFinset).card
    ∧ SameGroup
        (group_records_by_tour
          [⟨some "ABC123", none, some 100, none, none⟩,
           ⟨some "ABC123B", none, some 50, none, none⟩] "")
        ⟨some "ABC123", none, some 100, none, none⟩
        ⟨some "ABC123B", none, some 50, none, none⟩
    ∧ normalize_tour_code "ABC123B" = normalize_tour_code "ABC123" :=
  ⟨(grouping_behaviour.1
      [⟨some "G1", none, some 100, none, none⟩,
       ⟨some "G1", none, some 50, none, none⟩] "flight" (by decide)).1,
   grouping_behaviour.2.1
      [⟨some "ABC123", none, some 100, none, none⟩,
       ⟨some "ABC123B", none, some 50, none, none⟩] "" (by decide),
   grouping_behaviour.2.2.2.2.1
      [⟨some "ABC123", none, some 100, none, none⟩,
       ⟨some "ABC123B", none, some 50, none, none⟩] "" (by decide)
      ⟨some "ABC123", none, some 100, none, none⟩
      ⟨some "ABC123B", none, some 50, none, none⟩
      (by decide) (by decide) (by decide),
   grouping_behaviour.2.2.2.2.2 ("ABC123".data) 'B' '3' "ABC123B" "ABC123"
      (by decide) (by decide) (by decide) (by decide) (by decide) (by decide)⟩
